import Mathlib

/-!
Verification of the semantic-analysis / query-rewrite stage
(`src/Interpreters/SyntaxAnalyzer.cpp`).

The AST model is a shallow embedding of the ClickHouse AST shapes that the
analyzed passes inspect:

* `AST.selectq` carries an `ASTSelectQuery`: its named clauses are modelled
  as structure fields of `SelectData` (the real class stores them as
  indexed children; the traversal order of children used below is the
  canonical clause order).  The `SETTINGS` child (`ASTSetQuery`, whose
  `getID()` is `"Set"`) is modelled by the flag `hasSet`; the passes only
  test its presence.  The join element of the `TABLES` subtree is modelled
  by the field `join` (its `USING` / `ON` expressions belong to the
  `TABLES` zone of the tree and are traversed together with `tables`).
  `tables` holds the table-expression nodes of the `FROM` clause.
* `AST.tableExpr` is an `ASTTableExpression` with its three optional
  children (`database_and_table_name`, `table_function`, `subquery`).
* `AST.orderElem` is an `ASTOrderByElement` (expression child plus the
  optional collation).
* `AST.subquery` is an `ASTSubquery` wrapper; its child is a select.

Machine integers of the source (`UInt64` counters, `size_t` sizes) are
modelled as `Nat`: none of the verified paths can overflow them.
Fallible code (casts via `as<T &>`, error codes thrown as exceptions)
returns `Except Err`.
-/

/-- Error codes thrown by the analyzed passes (namespace `ErrorCodes`). -/
inductive Err : Type where
  | emptyNestedTable
  | expectedAllOrAny
  | notImplemented
  | illegalAggregation
  | badCast
  deriving Repr, DecidableEq

/-- `ASTTableJoin::Kind`. -/
inductive JoinKind : Type where
  | inner
  | left
  | right
  | full
  | cross
  | comma
  deriving Repr, DecidableEq

/-- `ASTTableJoin::Strictness`. -/
inductive JoinStrictness : Type where
  | unspecified
  | rightAny
  | semi
  | anti
  | asof
  | any
  | all
  deriving Repr, DecidableEq

/-- The `join_default_strictness` setting (`JoinStrictness` in
`Core/SettingsEnums`): empty string, `"ALL"` or `"ANY"`. -/
inductive JoinDefault : Type where
  | unspecified
  | all
  | any
  deriving Repr, DecidableEq

/-- Literal values (`Field` of an `ASTLiteral`), restricted to the kinds
the analyzed code inspects: strings (dictionary and attribute names read
with `safeGet<String>`) and unsigned integers (the synthetic `GROUP BY`
constant). -/
inductive Val : Type where
  | vstr (s : String)
  | vnum (n : Nat)
  deriving Repr, DecidableEq

/-- The join element of a select: `ASTTableJoin` fields read by the
passes (`kind`, `strictness`, `using_expression_list`, `on_expression`). -/
structure JoinInfo (α : Type) : Type where
  kind : JoinKind
  strictness : JoinStrictness
  usingList : Option (List α)
  onExpr : Option α
  deriving Repr

/-- `ASTSelectQuery`: the named clauses touched by the passes.  A clause
that holds an expression list (`SELECT`, `GROUP BY`, `ORDER BY`,
`LIMIT BY`, the `TABLES` children) is modelled as the list of the
children of that `ASTExpressionList`. -/
structure SelectData (α : Type) : Type where
  distinct : Bool
  hasSet : Bool
  selectList : List α
  tables : List α
  prewhereC : Option α
  whereC : Option α
  groupBy : Option (List α)
  having : Option α
  orderBy : Option (List α)
  limitBy : Option (List α)
  limitByOffset : Option α
  limitByLength : Option α
  limitLength : Option α
  limitOffset : Option α
  join : Option (JoinInfo α)
  deriving Repr

/-- The AST node variants inspected by the analyzed passes. -/
inductive AST : Type where
  | ident (name : String) (al : Option String)
  | lit (v : Val) (al : Option String)
  | func (name : String) (al : Option String) (args : List AST)
  | asterisk
  | qasterisk (pre : String)
  | orderElem (expr : AST) (collation : Option AST)
  | subquery (inner : AST)
  | tableExpr (dbTable tableFn subq : Option AST)
  | selectq (q : SelectData AST)
  deriving Repr

/-- External services consulted by the passes; they are outside this
translation unit and are modelled as read-only oracles (§5 of the spec:
settings snapshot, dictionary loader, function factory are thread-safe
read-only collaborators). -/
structure Ctx : Type where
  /-- `FunctionFactory::tryGet(name)->isStateful()`; `false` for unknown
  names (`tryGet` returns null and the conjunct short-circuits). -/
  isStateful : String → Bool
  /-- `ExternalDictionariesLoader::getDictionary(d)->isInjective(attr)`. -/
  dictIsInjective : String → String → Bool
  /-- `AggregateFunctionFactory` membership, used by the aggregate
  collector. -/
  isAggregate : String → Bool

theorem sizeOf_lt_of_mem_opt {α : Type} [SizeOf α] {a : α} {o : Option α}
    (h : a ∈ o) : sizeOf a < sizeOf o := by
  cases o with
  | none => cases h
  | some b => cases h; simp

theorem sizeOf_lt_of_mem_opt_list {α : Type} [SizeOf α] {a : α} {l : List α}
    {o : Option (List α)} (h1 : l ∈ o) (h2 : a ∈ l) : sizeOf a < sizeOf o :=
  lt_trans (List.sizeOf_lt_of_mem h2) (sizeOf_lt_of_mem_opt h1)

theorem AST.one_le_sizeOf (t : AST) : 1 ≤ sizeOf t := by
  cases t <;> simp <;> omega

/-- Decimal digits of `n`, most significant first (the rendering of
`toString(UInt64)` in the source). -/
def decDigits (n : Nat) : List Char :=
  if h : n < 10 then [Nat.digitChar n]
  else decDigits (n / 10) ++ [Nat.digitChar (n % 10)]
decreasing_by
  have h10 : 10 ≤ n := Nat.le_of_not_lt h
  exact Nat.div_lt_self (Nat.lt_of_lt_of_le (by omega) h10) (by omega)

/-- `toString(UInt64)`: decimal rendering. -/
def decimalRepr (n : Nat) : String := String.mk (decDigits n)

/-- Inverse of `Nat.digitChar` on decimal digits. -/
def charToDigit (c : Char) : Nat :=
  if c = '1' then 1 else if c = '2' then 2 else if c = '3' then 3
  else if c = '4' then 4 else if c = '5' then 5 else if c = '6' then 6
  else if c = '7' then 7 else if c = '8' then 8 else if c = '9' then 9
  else 0

theorem charToDigit_digitChar {d : Nat} (h : d < 10) :
    charToDigit (Nat.digitChar d) = d := by
  interval_cases d <;> rfl

/-- Decimal valuation of a digit string, most significant first. -/
def decVal (l : List Char) : Nat := l.foldl (fun acc c => acc * 10 + charToDigit c) 0

theorem decVal_append_singleton (l : List Char) (c : Char) :
    decVal (l ++ [c]) = decVal l * 10 + charToDigit c := by
  simp [decVal, List.foldl_append]

theorem decVal_decDigits (n : Nat) : decVal (decDigits n) = n := by
  induction n using decDigits.induct with
  | case1 n h =>
      rw [decDigits]
      simp only [h, dite_true, decVal, List.foldl]
      rw [charToDigit_digitChar h]
      omega
  | case2 n h ih =>
      rw [decDigits]
      simp only [h, dite_false]
      rw [decVal_append_singleton, ih, charToDigit_digitChar (Nat.mod_lt n (by omega))]
      omega

theorem decimalRepr_injective : Function.Injective decimalRepr := by
  intro a b hab
  have : decDigits a = decDigits b := by
    have := congrArg String.data hab
    simpa [decimalRepr] using this
  have h2 := congrArg decVal this
  rwa [decVal_decDigits, decVal_decDigits] at h2

def joinComma (l : List String) : String := String.intercalate ", " l

/-- `FieldVisitorToString`, restricted to the modelled `Field` kinds. -/
def Val.render : Val → String
  | .vstr s => "\x27" ++ s ++ "\x27"
  | .vnum n => decimalRepr n

/-- `IAST::getColumnName()`: the canonical textual rendering of a node
(alias-free).  Only its determinism matters to the verified passes; the
rendering below covers every modelled node shape. -/
def AST.columnName : AST → String
  | .ident n _ => n
  | .lit v _ => v.render
  | .func n _ args =>
      n ++ "(" ++ joinComma (args.attach.map fun ⟨c, _⟩ => c.columnName) ++ ")"
  | .asterisk => "*"
  | .qasterisk p => p ++ ".*"
  | .orderElem e c =>
      e.columnName ++
        (match c.attach.map (fun ⟨x, _⟩ => x.columnName) with
          | some s => " COLLATE " ++ s
          | none => "")
  | .subquery s => "_subquery(" ++ s.columnName ++ ")"
  | .tableExpr a b c =>
      "table(" ++
        joinComma ((a.attach.map fun ⟨x, _⟩ => x.columnName).toList ++
                   (b.attach.map fun ⟨x, _⟩ => x.columnName).toList ++
                   (c.attach.map fun ⟨x, _⟩ => x.columnName).toList) ++ ")"
  | .selectq ⟨d, hs, sl, tb, pw, wh, gb, hv, ob, lb, lbo, lbl, ll, lo, jn⟩ =>
      "SELECT " ++ (if d then "DISTINCT " else "") ++ (if hs then "SET " else "") ++
      joinComma (sl.attach.map fun ⟨c, _⟩ => c.columnName) ++
      " FROM " ++ joinComma (tb.attach.map fun ⟨c, _⟩ => c.columnName) ++
      (match jn.attach.map (fun ⟨⟨k, s, ul, oe⟩, _⟩ =>
          " JOIN " ++ toString (repr k) ++ " " ++ toString (repr s) ++
          " USING " ++ joinComma ((ul.attach.map fun ⟨l2, _⟩ =>
              l2.attach.map fun ⟨c, _⟩ => c.columnName).toList.join) ++
          " ON " ++ joinComma ((oe.attach.map fun ⟨c, _⟩ => c.columnName).toList)) with
        | some s => s | none => "") ++
      " PREWHERE " ++ joinComma ((pw.attach.map fun ⟨c, _⟩ => c.columnName).toList) ++
      " WHERE " ++ joinComma ((wh.attach.map fun ⟨c, _⟩ => c.columnName).toList) ++
      " GROUP BY " ++ joinComma ((gb.attach.map fun ⟨l2, _⟩ =>
          l2.attach.map fun ⟨c, _⟩ => c.columnName).toList.join) ++
      " HAVING " ++ joinComma ((hv.attach.map fun ⟨c, _⟩ => c.columnName).toList) ++
      " ORDER BY " ++ joinComma ((ob.attach.map fun ⟨l2, _⟩ =>
          l2.attach.map fun ⟨c, _⟩ => c.columnName).toList.join) ++
      " LIMIT BY " ++ joinComma ((lb.attach.map fun ⟨l2, _⟩ =>
          l2.attach.map fun ⟨c, _⟩ => c.columnName).toList.join) ++
      " LIMITS " ++ joinComma (((lbo.attach.map fun ⟨c, _⟩ => c.columnName).toList ++
          (lbl.attach.map fun ⟨c, _⟩ => c.columnName).toList ++
          (ll.attach.map fun ⟨c, _⟩ => c.columnName).toList ++
          (lo.attach.map fun ⟨c, _⟩ => c.columnName).toList))
decreasing_by
  all_goals
  first
  | (have h1 := sizeOf_lt_of_mem_opt_list ‹l2 ∈ gb› ‹c ∈ l2›; simp; omega)
  | (have h1 := sizeOf_lt_of_mem_opt_list ‹l2 ∈ ob› ‹c ∈ l2›; simp; omega)
  | (have h1 := sizeOf_lt_of_mem_opt_list ‹l2 ∈ lb› ‹c ∈ l2›; simp; omega)
  | (have h1 := sizeOf_lt_of_mem_opt_list ‹l2 ∈ ul› ‹c ∈ l2›
     have h2 := sizeOf_lt_of_mem_opt ‹JoinInfo.mk k s ul oe ∈ jn›
     simp at h2 ⊢; omega)
  | (have h1 := sizeOf_lt_of_mem_opt ‹c ∈ oe›
     have h2 := sizeOf_lt_of_mem_opt ‹JoinInfo.mk k s ul oe ∈ jn›
     simp at h2 ⊢; omega)
  | decreasing_tactic

/-- `IAST::tryGetAlias()`: the alias of a node.  Only identifiers,
literals and functions carry aliases (`ASTWithAlias`). -/
def AST.aliasOf : AST → Option String
  | .ident _ a => a
  | .lit _ a => a
  | .func _ a _ => a
  | _ => none

/-- `IAST::getAliasOrColumnName()`: the alias when non-empty, otherwise
`getColumnName()`. -/
def AST.aliasOrColumnName (t : AST) : String :=
  match t.aliasOf with
  | some a => a
  | none => t.columnName

/-- Whether a node is an `ASTSelectQuery` (the `as<ASTSelectQuery>()`
test). -/
def AST.isSelect : AST → Bool
  | .selectq _ => true
  | _ => false

/-- Whether a node is an `ASTIdentifier`. -/
def AST.isIdent : AST → Bool
  | .ident _ _ => true
  | _ => false

/-- Whether a node is an `ASTLiteral` (the `is_literal` lambda of
`optimizeGroupBy`). -/
def AST.isLiteral : AST → Bool
  | .lit _ _ => true
  | _ => false

/-- `IAST::children`: the child nodes of a node, in canonical clause
order for a select (the join element's `USING`/`ON` expressions sit in
the `TABLES` zone, directly after the table expressions). -/
def AST.childrenList : AST → List AST
  | .ident _ _ => []
  | .lit _ _ => []
  | .func _ _ args => args
  | .asterisk => []
  | .qasterisk _ => []
  | .orderElem e c => e :: c.toList
  | .subquery s => [s]
  | .tableExpr a b c => a.toList ++ b.toList ++ c.toList
  | .selectq ⟨_, _, sl, tb, pw, wh, gb, hv, ob, lb, lbo, lbl, ll, lo, jn⟩ =>
      sl ++ tb ++
      (match jn with
        | some j => j.usingList.getD [] ++ j.onExpr.toList
        | none => []) ++
      pw.toList ++ wh.toList ++ gb.getD [] ++ hv.toList ++ ob.getD [] ++
      lb.getD [] ++ lbo.toList ++ lbl.toList ++ ll.toList ++ lo.toList

theorem sizeOf_lt_of_mem_toList {α : Type} [SizeOf α] {a : α} {o : Option α}
    (h : a ∈ o.toList) : sizeOf a < sizeOf o := by
  cases o with
  | none => simp [Option.toList] at h
  | some b => simp [Option.toList] at h; subst h; simp

theorem sizeOf_lt_of_mem_getD {α : Type} [SizeOf α] {a : α} {o : Option (List α)}
    (h : a ∈ o.getD []) : sizeOf a < sizeOf o := by
  cases o with
  | none => simp at h
  | some l =>
      simp only [Option.getD] at h
      have := List.sizeOf_lt_of_mem h
      simp
      omega

theorem sizeOf_lt_of_mem_childrenList {c t : AST} (h : c ∈ t.childrenList) :
    sizeOf c < sizeOf t := by
  cases t with
  | ident n a => simp [AST.childrenList] at h
  | lit v a => simp [AST.childrenList] at h
  | func n a args =>
      have := List.sizeOf_lt_of_mem h
      simp [AST.childrenList] at this ⊢
      omega
  | asterisk => simp [AST.childrenList] at h
  | qasterisk p => simp [AST.childrenList] at h
  | orderElem e co =>
      simp only [AST.childrenList, List.mem_cons] at h
      rcases h with h | h
      · subst h; simp; omega
      · have := sizeOf_lt_of_mem_toList h; simp; omega
  | subquery s =>
      simp [AST.childrenList] at h
      subst h; simp
  | tableExpr a b co =>
      simp only [AST.childrenList, List.mem_append, or_assoc] at h
      rcases h with h | h | h <;> (have hx := sizeOf_lt_of_mem_toList h; simp; omega)
  | selectq q =>
      obtain ⟨d, hs, sl, tb, pw, wh, gb, hv, ob, lb, lbo, lbl, ll, lo, jn⟩ := q
      simp only [AST.childrenList, List.mem_append, or_assoc] at h
      rcases h with h | h | h | h | h | h | h | h | h | h | h | h | h
      · have := List.sizeOf_lt_of_mem h; simp; omega
      · have := List.sizeOf_lt_of_mem h; simp; omega
      · cases jn with
        | none => simp at h
        | some j =>
            obtain ⟨k, st, ul, oe⟩ := j
            simp only [List.mem_append] at h
            rcases h with h | h
            · have := sizeOf_lt_of_mem_getD h; simp at this ⊢; omega
            · have := sizeOf_lt_of_mem_toList h; simp at this ⊢; omega
      · have := sizeOf_lt_of_mem_toList h; simp; omega
      · have := sizeOf_lt_of_mem_toList h; simp; omega
      · have := sizeOf_lt_of_mem_getD h; simp; omega
      · have := sizeOf_lt_of_mem_toList h; simp; omega
      · have := sizeOf_lt_of_mem_getD h; simp; omega
      · have := sizeOf_lt_of_mem_getD h; simp; omega
      · have := sizeOf_lt_of_mem_toList h; simp; omega
      · have := sizeOf_lt_of_mem_toList h; simp; omega
      · have := sizeOf_lt_of_mem_toList h; simp; omega
      · have := sizeOf_lt_of_mem_toList h; simp; omega

/-- Whether a node is an `ASTFunction`. -/
def AST.isFunc : AST → Bool
  | .func _ _ _ => true
  | _ => false

/-- `hasArrayJoin` (SyntaxAnalyzer.cpp): an `arrayJoin` call occurs in the
subtree, where the search does not descend into select queries. -/
def hasArrayJoin (t : AST) : Bool :=
  (match t with | .func n _ _ => n == "arrayJoin" | _ => false)
  || t.childrenList.attach.any fun ⟨c, _⟩ => !c.isSelect && hasArrayJoin c
termination_by sizeOf t
decreasing_by have := sizeOf_lt_of_mem_childrenList ‹c ∈ _›; omega

/-- `isASTFunctionStateful`: the function itself is stateful, or one of
its arguments that is a function is (recursively) stateful. -/
def isASTFunctionStateful (ctx : Ctx) : AST → Bool
  | .func n _ args =>
      ctx.isStateful n ||
        args.attach.any fun ⟨c, _⟩ => c.isFunc && isASTFunctionStateful ctx c
  | _ => false
termination_by t => sizeOf t
decreasing_by have := List.sizeOf_lt_of_mem ‹c ∈ _›; simp; omega

/-- The duplicate-count map built by
`removeUnneededColumnsFromSelectClause` from a non-empty
`required_result_columns` list. -/
def initialRequiredCount (required_result_columns : List String) (remove_dups : Bool) :
    String → Nat :=
  fun s =>
    if remove_dups then (if required_result_columns.contains s then 1 else 0)
    else required_result_columns.count s

/-- The element-filtering loop of `removeUnneededColumnsFromSelectClause`:
keep an element while its name still has budget in the map, otherwise keep
it only under `DISTINCT` or when it contains `arrayJoin`. -/
def removeUnneededLoop (distinct : Bool) (elements : List AST)
    (remaining : String → Nat) : List AST :=
  match elements with
  | [] => []
  | e :: es =>
      let name := e.aliasOrColumnName
      if remaining name ≠ 0 then
        e :: removeUnneededLoop distinct es
          (fun s => if s = name then remaining name - 1 else remaining s)
      else if distinct || hasArrayJoin e then
        e :: removeUnneededLoop distinct es remaining
      else
        removeUnneededLoop distinct es remaining

/-- `removeUnneededColumnsFromSelectClause`. -/
def removeUnneededColumnsFromSelectClause (q : SelectData AST)
    (required_result_columns : List String) (remove_dups : Bool) : SelectData AST :=
  if required_result_columns ≠ [] then
    let sl := removeUnneededLoop q.distinct q.selectList
      (initialRequiredCount required_result_columns remove_dups)
    { q with selectList := sl }
  else if remove_dups then
    let sl := removeUnneededLoop q.distinct q.selectList
      (fun s => if (q.selectList.map AST.aliasOrColumnName).contains s then 1 else 0)
    { q with selectList := sl }
  else q

/-- The `while (source_columns.count(...)) ++unused_column;` search of
`appendUnusedGroupByColumn`, with explicit fuel (the loop stops after at
most `|source_columns|` collisions; see `unusedColumnLoop_found`). -/
def unusedColumnLoop (source_columns : List String) : Nat → Nat → Nat
  | 0, n => n
  | fuel + 1, n =>
      if source_columns.contains (decimalRepr n) then
        unusedColumnLoop source_columns fuel (n + 1)
      else n

/-- The constant chosen by `appendUnusedGroupByColumn`. -/
def unusedColumnNat (source_columns : List String) : Nat :=
  unusedColumnLoop source_columns (source_columns.length + 1) 0

/-- `appendUnusedGroupByColumn`: replace `GROUP BY` with the single
constant that is not the name of a source column. -/
def appendUnusedGroupByColumn (q : SelectData AST) (source_columns : List String) :
    SelectData AST :=
  { q with groupBy := some [AST.lit (Val.vnum (unusedColumnNat source_columns)) none] }

/-- The injective function names unwrapped by `optimizeGroupBy`. -/
def injective_function_names : List String :=
  ["negate", "bitNot", "reverse", "reverseUTF8", "toString", "toFixedString",
   "IPv4NumToString", "IPv4StringToNum", "hex", "unhex", "bitmaskToList",
   "bitmaskToArray", "tuple", "regionToName", "concatAssumeInjective"]

/-- The conditionally injective (dictionary) function names of
`optimizeGroupBy`. -/
def possibly_injective_function_names : List String :=
  ["dictGetString", "dictGetUInt8", "dictGetUInt16", "dictGetUInt32",
   "dictGetUInt64", "dictGetInt8", "dictGetInt16", "dictGetInt32",
   "dictGetInt64", "dictGetFloat32", "dictGetFloat64", "dictGetDate",
   "dictGetDateTime"]

/-- The decision taken by the `optimizeGroupBy` loop body on one
`GROUP BY` expression. -/
inductive GroupByStep : Type where
  | keep
  | removeLiteral
  | unwrap (args : List AST)
  | castError
  deriving Repr

/-- One iteration of the `optimizeGroupBy` loop body: `keep` is the
`++i` path, `removeLiteral` the literal removal, `unwrap` the injective
function elimination, and `castError` the `as<ASTLiteral &>` /
`safeGet<String>` failure on a malformed `dictGet*` call. -/
def classifyGroupByElem (ctx : Ctx) (e : AST) : GroupByStep :=
  match e with
  | .func name _ args =>
      if possibly_injective_function_names.contains name then
        if args.length < 2 then .keep
        else
          match args[0]?, args[1]? with
          | some (AST.lit (Val.vstr dict_name) _), some (AST.lit (Val.vstr attr_name) _) =>
              if ctx.dictIsInjective dict_name attr_name then .unwrap args else .keep
          | _, _ => .castError
      else if injective_function_names.contains name then .unwrap args
      else .keep
  | .lit _ _ => .removeLiteral
  | _ => .keep

/-- `remove_expr_at_index` seen from the tail of the work list: the
element at the current index is removed, the last element takes its
place. -/
def swapHead (l : List AST) : List AST :=
  match l.getLast? with
  | none => []
  | some last => last :: l.dropLast

/-- Node count of a subtree (computable counterpart of `sizeOf`, the
termination measure of the `optimizeGroupBy` loop). -/
def astSize (t : AST) : Nat :=
  1 + (t.childrenList.attach.map fun ⟨c, _⟩ => astSize c).sum
termination_by sizeOf t
decreasing_by have := sizeOf_lt_of_mem_childrenList ‹c ∈ _›; omega

/-- Total size of a work list, the termination measure of the
`optimizeGroupBy` loop. -/
def sumSize (l : List AST) : Nat := (l.map astSize).sum

theorem astSize_pos (t : AST) : 0 < astSize t := by
  rw [astSize]; omega

theorem sumSize_nil : sumSize [] = 0 := rfl

theorem sumSize_cons (a : AST) (l : List AST) :
    sumSize (a :: l) = astSize a + sumSize l := by
  simp [sumSize]

theorem sumSize_append (l1 l2 : List AST) :
    sumSize (l1 ++ l2) = sumSize l1 + sumSize l2 := by
  simp [sumSize]

theorem sumSize_swapHead (l : List AST) : sumSize (swapHead l) = sumSize l := by
  match l with
  | [] => rfl
  | a :: l2 =>
      have hne : a :: l2 ≠ [] := by simp
      have hdec := (List.dropLast_append_getLast hne).symm
      rw [swapHead]
      rw [List.getLast?_eq_getLast (a :: l2) hne]
      conv_rhs => rw [hdec]
      rw [sumSize_append, sumSize_cons, sumSize_cons, sumSize_nil]
      omega

theorem sumSize_filter_le (p : AST → Bool) (l : List AST) :
    sumSize (l.filter p) ≤ sumSize l := by
  induction l with
  | nil => simp [sumSize]
  | cons a l2 ih =>
      by_cases h : p a
      · rw [List.filter_cons_of_pos h, sumSize_cons, sumSize_cons]; omega
      · rw [List.filter_cons_of_neg h, sumSize_cons]; omega

theorem astSize_func (n : String) (al : Option String) (args : List AST) :
    astSize (.func n al args) = 1 + sumSize args := by
  rw [astSize]
  simp [AST.childrenList, sumSize, List.map_attach]

theorem classify_unwrap_bound {ctx : Ctx} {e : AST} {args : List AST}
    (h : classifyGroupByElem ctx e = .unwrap args) :
    sumSize (args.filter fun a => !a.isLiteral) < astSize e := by
  cases e with
  | func n al args0 =>
      have hargs : args = args0 := by
        simp only [classifyGroupByElem] at h
        split_ifs at h <;>
          first
          | (cases h <;> rfl)
          | (split at h <;>
              first
              | (cases h <;> rfl)
              | (split at h <;> (cases h <;> rfl)))
      subst hargs
      calc sumSize (args.filter fun a => !a.isLiteral) ≤ sumSize args :=
            sumSize_filter_le _ _
        _ < astSize (.func n al args) := by rw [astSize_func]; omega
  | ident n a => simp [classifyGroupByElem] at h
  | lit v a => simp [classifyGroupByElem] at h
  | asterisk => simp [classifyGroupByElem] at h
  | qasterisk p => simp [classifyGroupByElem] at h
  | orderElem e2 c => simp [classifyGroupByElem] at h
  | subquery s => simp [classifyGroupByElem] at h
  | tableExpr a b c => simp [classifyGroupByElem] at h
  | selectq q => simp [classifyGroupByElem] at h

theorem sumSize_lt_cons (x : AST) (rs : List AST) : sumSize rs < sumSize (x :: rs) := by
  rw [sumSize_cons]; have := astSize_pos x; omega

theorem sumSize_swapHead_lt (x : AST) (rs : List AST) :
    sumSize (swapHead rs) < sumSize (x :: rs) := by
  rw [sumSize_cons, sumSize_swapHead]; have := astSize_pos x; omega

theorem sumSize_unwrap_lt {ctx : Ctx} {x : AST} {args : List AST}
    (h : classifyGroupByElem ctx x = .unwrap args) (rs : List AST) :
    sumSize (swapHead rs ++ args.filter fun a => !a.isLiteral) < sumSize (x :: rs) := by
  rw [sumSize_cons, sumSize_append, sumSize_swapHead]
  have := classify_unwrap_bound h
  omega

/-- The `for (size_t i = 0; i < group_exprs.size();)` loop of
`optimizeGroupBy`.  `settled` holds the elements at indexes below `i`
(each already examined and kept); `pending` holds the elements from `i`
on, in vector order.  `remove_expr_at_index` swaps the last element into
the hole, which `swapHead` reproduces on the pending tail; promoted
arguments are appended at the back. -/
def gbLoop (ctx : Ctx) (settled pending : List AST) : Except Err (List AST) :=
  match pending with
  | [] => .ok settled
  | x :: rs =>
      match hcl : classifyGroupByElem ctx x with
      | .castError => .error .badCast
      | .keep => gbLoop ctx (settled ++ [x]) rs
      | .removeLiteral => gbLoop ctx settled (swapHead rs)
      | .unwrap args =>
          gbLoop ctx settled (swapHead rs ++ args.filter fun a => !a.isLiteral)
termination_by sumSize pending
decreasing_by
  · exact sumSize_lt_cons _ _
  · exact sumSize_swapHead_lt _ _
  · exact sumSize_unwrap_lt ‹_› _

/-- `optimizeGroupBy`. -/
def optimizeGroupBy (q : SelectData AST) (source_columns : List String)
    (ctx : Ctx) : Except Err (SelectData AST) :=
  match q.groupBy with
  | none =>
      if q.having.isSome then .ok (appendUnusedGroupByColumn q source_columns)
      else .ok q
  | some group_exprs =>
      match gbLoop ctx [] group_exprs with
      | .error e => .error e
      | .ok res =>
          if res.isEmpty then .ok (appendUnusedGroupByColumn q source_columns)
          else .ok { q with groupBy := some res }

/-- The sort key used by `optimizeOrderBy`: the column name of the first
child (the sort expression) and the collation column name (empty when
absent).  A non-`ASTOrderByElement` entry makes the
`as<ASTOrderByElement &>()` cast fail. -/
def orderByKey : AST → Except Err (String × String)
  | .orderElem e c =>
      .ok (e.columnName, match c with | some cc => cc.columnName | none => "")
  | _ => .error .badCast

/-- The dedup loop of `optimizeOrderBy`: keep an element iff its key was
newly inserted into `elems_set`. -/
def optimizeOrderByLoop (seen : List (String × String)) :
    List AST → Except Err (List AST)
  | [] => .ok []
  | e :: es => do
      let key ← orderByKey e
      if seen.contains key then optimizeOrderByLoop seen es
      else do
        let rest ← optimizeOrderByLoop (key :: seen) es
        .ok (e :: rest)

/-- `optimizeOrderBy`: remove duplicate items from `ORDER BY`. -/
def optimizeOrderBy (q : SelectData AST) : Except Err (SelectData AST) :=
  match q.orderBy with
  | none => .ok q
  | some elems => do
      let unique ← optimizeOrderByLoop [] elems
      if unique.length < elems.length then .ok { q with orderBy := some unique }
      else .ok q

/-- The dedup loop of `optimizeLimitBy` (key: `getColumnName`). -/
def optimizeLimitByLoop (seen : List String) : List AST → List AST
  | [] => []
  | e :: es =>
      if seen.contains e.columnName then optimizeLimitByLoop seen es
      else e :: optimizeLimitByLoop (e.columnName :: seen) es

/-- `optimizeLimitBy`: remove duplicate items from `LIMIT BY`. -/
def optimizeLimitBy (q : SelectData AST) : SelectData AST :=
  match q.limitBy with
  | none => q
  | some elems =>
      let unique := optimizeLimitByLoop [] elems
      if unique.length < elems.length then { q with limitBy := some unique }
      else q

/-- The dedup loop of `optimizeUsing` (key: `getAliasOrColumnName`). -/
def optimizeUsingLoop (seen : List String) : List AST → List AST
  | [] => []
  | e :: es =>
      if seen.contains e.aliasOrColumnName then optimizeUsingLoop seen es
      else e :: optimizeUsingLoop (e.aliasOrColumnName :: seen) es

/-- `optimizeUsing`: remove duplicated columns from `USING (...)`. -/
def optimizeUsing (q : SelectData AST) : SelectData AST :=
  match q.join with
  | none => q
  | some j =>
      match j.usingList with
      | none => q
      | some ul =>
          let unique := optimizeUsingLoop [] ul
          if unique.length < ul.length then
            { q with join := some { j with usingList := some unique } }
          else q

/-- The strictness-defaulting step of `setJoinStrictness` (the first
`if` block). -/
def joinDefaultStep (j : JoinInfo AST) (join_default_strictness : JoinDefault) :
    Except Err (JoinInfo AST) :=
  if j.strictness = JoinStrictness.unspecified ∧ j.kind ≠ JoinKind.cross then
    match join_default_strictness with
    | .any => .ok { j with strictness := JoinStrictness.any }
    | .all => .ok { j with strictness := JoinStrictness.all }
    | .unspecified => .error .expectedAllOrAny
  else .ok j

/-- The `old_any` compatibility rewriting of `setJoinStrictness`
(`any_join_distinct_right_table_keys` behavior). -/
def joinOldAnyStep (j : JoinInfo AST) (old_any : Bool) :
    Except Err (JoinInfo AST) :=
  if old_any then
    let j1 :=
      if j.strictness = JoinStrictness.any ∧ j.kind = JoinKind.inner then
        { j with strictness := JoinStrictness.semi, kind := JoinKind.left }
      else j
    let j2 :=
      if j1.strictness = JoinStrictness.any then
        { j1 with strictness := JoinStrictness.rightAny }
      else j1
    .ok j2
  else
    if j.strictness = JoinStrictness.any ∧ j.kind = JoinKind.full then
      .error .notImplemented
    else .ok j

/-- `setJoinStrictness`.  The source mutates `table_join` inside the AST
and copies it to `out_table_join`; the copy equals `(result).join`. -/
def setJoinStrictness (q : SelectData AST) (join_default_strictness : JoinDefault)
    (old_any : Bool) : Except Err (SelectData AST) :=
  match q.join with
  | none => .ok q
  | some j0 => do
      let j1 ← joinDefaultStep j0 join_default_strictness
      let j2 ← joinOldAnyStep j1 old_any
      .ok { q with join := some j2 }

/-- `optimizeDuplicateOrderByFromSubqueries`: on a select, drop
`ORDER BY` when present and no `LIMIT BY`/`LIMIT` clause exists, without
descending further; on any other node, recurse into the children. -/
def optimizeDuplicateOrderByFromSubqueries (t : AST) : AST :=
  match t with
  | .selectq q =>
      if q.orderBy.isSome && q.limitBy.isNone && q.limitByOffset.isNone &&
         q.limitByLength.isNone && q.limitLength.isNone && q.limitOffset.isNone
      then .selectq { q with orderBy := none }
      else .selectq q
  | .ident n a => .ident n a
  | .lit v a => .lit v a
  | .func n a args =>
      .func n a (args.attach.map fun ⟨c, _⟩ => optimizeDuplicateOrderByFromSubqueries c)
  | .asterisk => .asterisk
  | .qasterisk p => .qasterisk p
  | .orderElem e c =>
      .orderElem (optimizeDuplicateOrderByFromSubqueries e)
        (c.attach.map fun ⟨x, _⟩ => optimizeDuplicateOrderByFromSubqueries x)
  | .subquery s => .subquery (optimizeDuplicateOrderByFromSubqueries s)
  | .tableExpr a b c =>
      .tableExpr (a.attach.map fun ⟨x, _⟩ => optimizeDuplicateOrderByFromSubqueries x)
        (b.attach.map fun ⟨x, _⟩ => optimizeDuplicateOrderByFromSubqueries x)
        (c.attach.map fun ⟨x, _⟩ => optimizeDuplicateOrderByFromSubqueries x)
termination_by sizeOf t

/-- Application of `optimizeDuplicateOrderByFromSubqueries` to the
`TABLES` zone of a select (the table expressions and the join element's
`USING`/`ON` expressions). -/
def dropSubqueryOrderBys (q : SelectData AST) : SelectData AST :=
  { q with
    tables := q.tables.map optimizeDuplicateOrderByFromSubqueries,
    join := q.join.map fun j =>
      { j with
        usingList := j.usingList.map (List.map optimizeDuplicateOrderByFromSubqueries),
        onExpr := j.onExpr.map optimizeDuplicateOrderByFromSubqueries } }

/-- `optimizeDuplicateOrderBy`: post-order walk; at a select query with no
`Set` child, with `ORDER BY` or `GROUP BY`, and with no stateful function
in the select list, drop redundant subquery `ORDER BY` clauses under its
`TABLES` zone. -/
def optimizeDuplicateOrderBy (ctx : Ctx) (t : AST) : AST :=
  match t with
  | .ident n a => .ident n a
  | .lit v a => .lit v a
  | .func n a args =>
      .func n a (args.attach.map fun ⟨c, _⟩ => optimizeDuplicateOrderBy ctx c)
  | .asterisk => .asterisk
  | .qasterisk p => .qasterisk p
  | .orderElem e c =>
      .orderElem (optimizeDuplicateOrderBy ctx e)
        (c.attach.map fun ⟨x, _⟩ => optimizeDuplicateOrderBy ctx x)
  | .subquery s => .subquery (optimizeDuplicateOrderBy ctx s)
  | .tableExpr a b c =>
      .tableExpr (a.attach.map fun ⟨x, _⟩ => optimizeDuplicateOrderBy ctx x)
        (b.attach.map fun ⟨x, _⟩ => optimizeDuplicateOrderBy ctx x)
        (c.attach.map fun ⟨x, _⟩ => optimizeDuplicateOrderBy ctx x)
  | .selectq ⟨d, hs, sl, tb, pw, wh, gb, hv, ob, lb, lbo, lbl, ll, lo, jn⟩ =>
      let q1 : SelectData AST :=
        ⟨d, hs,
         sl.attach.map (fun ⟨c, _⟩ => optimizeDuplicateOrderBy ctx c),
         tb.attach.map (fun ⟨c, _⟩ => optimizeDuplicateOrderBy ctx c),
         pw.attach.map (fun ⟨c, _⟩ => optimizeDuplicateOrderBy ctx c),
         wh.attach.map (fun ⟨c, _⟩ => optimizeDuplicateOrderBy ctx c),
         gb.attach.map (fun ⟨l2, _⟩ =>
           l2.attach.map fun ⟨c, _⟩ => optimizeDuplicateOrderBy ctx c),
         hv.attach.map (fun ⟨c, _⟩ => optimizeDuplicateOrderBy ctx c),
         ob.attach.map (fun ⟨l2, _⟩ =>
           l2.attach.map fun ⟨c, _⟩ => optimizeDuplicateOrderBy ctx c),
         lb.attach.map (fun ⟨l2, _⟩ =>
           l2.attach.map fun ⟨c, _⟩ => optimizeDuplicateOrderBy ctx c),
         lbo.attach.map (fun ⟨c, _⟩ => optimizeDuplicateOrderBy ctx c),
         lbl.attach.map (fun ⟨c, _⟩ => optimizeDuplicateOrderBy ctx c),
         ll.attach.map (fun ⟨c, _⟩ => optimizeDuplicateOrderBy ctx c),
         lo.attach.map (fun ⟨c, _⟩ => optimizeDuplicateOrderBy ctx c),
         jn.attach.map (fun ⟨⟨k, s, ul, oe⟩, _⟩ =>
           ⟨k, s,
            ul.attach.map (fun ⟨l2, _⟩ =>
              l2.attach.map fun ⟨c, _⟩ => optimizeDuplicateOrderBy ctx c),
            oe.attach.map fun ⟨c, _⟩ => optimizeDuplicateOrderBy ctx c⟩)⟩
      if q1.hasSet then .selectq q1
      else if q1.orderBy.isSome || q1.groupBy.isSome then
        if q1.selectList.any (fun e => e.isFunc && isASTFunctionStateful ctx e) then
          .selectq q1
        else .selectq (dropSubqueryOrderBys q1)
      else .selectq q1
termination_by sizeOf t
decreasing_by
  all_goals
  first
  | (have h1 := sizeOf_lt_of_mem_opt_list ‹l2 ∈ gb› ‹c ∈ l2›; simp; omega)
  | (have h1 := sizeOf_lt_of_mem_opt_list ‹l2 ∈ ob› ‹c ∈ l2›; simp; omega)
  | (have h1 := sizeOf_lt_of_mem_opt_list ‹l2 ∈ lb› ‹c ∈ l2›; simp; omega)
  | (have h1 := sizeOf_lt_of_mem_opt_list ‹l2 ∈ ul› ‹c ∈ l2›
     have h2 := sizeOf_lt_of_mem_opt ‹JoinInfo.mk k s ul oe ∈ jn›
     simp at h2 ⊢; omega)
  | (have h1 := sizeOf_lt_of_mem_opt ‹c ∈ oe›
     have h2 := sizeOf_lt_of_mem_opt ‹JoinInfo.mk k s ul oe ∈ jn›
     simp at h2 ⊢; omega)
  | decreasing_tactic

/-- The traversal state of `optimizeDuplicateDistinct`:
`(is_distinct, last_ids)`. -/
abbrev DDState : Type := Bool × List String

mutual

/-- The recursive worker of `optimizeDuplicateDistinct`: post-order walk
threading `(is_distinct, last_ids)`.  At a select: a `Set` child resets
the state and returns; a `DISTINCT` select computes its projection
signature (`current_ids`, preceded by the first table expression ids when
the first selected column is an asterisk), drops `DISTINCT` when the
signature equals `last_ids` under `is_distinct`, and updates the state. -/
def ddVisit (t : AST) (st : DDState) : AST × DDState :=
  match t with
  | .ident n a => (.ident n a, st)
  | .lit v a => (.lit v a, st)
  | .func n a args =>
      let p := ddVisitList args st
      (.func n a p.1, p.2)
  | .asterisk => (.asterisk, st)
  | .qasterisk p => (.qasterisk p, st)
  | .orderElem e c =>
      let p1 := ddVisit e st
      let p2 := ddVisitOpt c p1.2
      (.orderElem p1.1 p2.1, p2.2)
  | .subquery s =>
      let p := ddVisit s st
      (.subquery p.1, p.2)
  | .tableExpr a b c =>
      let p1 := ddVisitOpt a st
      let p2 := ddVisitOpt b p1.2
      let p3 := ddVisitOpt c p2.2
      (.tableExpr p1.1 p2.1 p3.1, p3.2)
  | .selectq ⟨d, hs, sl, tb, pw, wh, gb, hv, ob, lb, lbo, lbl, ll, lo, jn⟩ =>
      let psl := ddVisitList sl st
      let ptb := ddVisitList tb psl.2
      let pjn := ddVisitJoin jn ptb.2
      let ppw := ddVisitOpt pw pjn.2
      let pwh := ddVisitOpt wh ppw.2
      let pgb := ddVisitOptList gb pwh.2
      let phv := ddVisitOpt hv pgb.2
      let pob := ddVisitOptList ob phv.2
      let plb := ddVisitOptList lb pob.2
      let plbo := ddVisitOpt lbo plb.2
      let plbl := ddVisitOpt lbl plbo.2
      let pll := ddVisitOpt ll plbl.2
      let plo := ddVisitOpt lo pll.2
      let q1 : SelectData AST :=
        ⟨d, hs, psl.1, ptb.1, ppw.1, pwh.1, pgb.1, phv.1, pob.1, plb.1,
         plbo.1, plbl.1, pll.1, plo.1, pjn.1⟩
      let stc := plo.2
      if hs then (.selectq q1, (false, []))
      else if d then
        let asteriskIds : List String :=
          match q1.selectList.head? with
          | some AST.asterisk | some (AST.qasterisk _) =>
              (match q1.tables.head? with
                | some (AST.tableExpr a2 b2 c2) =>
                    (a2.toList ++ b2.toList ++ c2.toList).map AST.columnName
                | _ => [])
          | _ => []
        let current_ids := asteriskIds ++ q1.selectList.map AST.columnName
        let q2 := if stc.1 ∧ current_ids = stc.2 then { q1 with distinct := false } else q1
        (.selectq q2, (true, current_ids))
      else (.selectq q1, stc)
termination_by sizeOf t

/-- List traversal of `ddVisit`, threading the state left to right. -/
def ddVisitList (l : List AST) (st : DDState) : List AST × DDState :=
  match l with
  | [] => ([], st)
  | x :: xs =>
      let p1 := ddVisit x st
      let p2 := ddVisitList xs p1.2
      (p1.1 :: p2.1, p2.2)
termination_by sizeOf l

/-- Optional-child traversal of `ddVisit`. -/
def ddVisitOpt (o : Option AST) (st : DDState) : Option AST × DDState :=
  match o with
  | none => (none, st)
  | some x =>
      let p := ddVisit x st
      (some p.1, p.2)
termination_by sizeOf o

/-- Optional-list traversal of `ddVisit`. -/
def ddVisitOptList (o : Option (List AST)) (st : DDState) :
    Option (List AST) × DDState :=
  match o with
  | none => (none, st)
  | some l =>
      let p := ddVisitList l st
      (some p.1, p.2)
termination_by sizeOf o

/-- Join-element traversal of `ddVisit` (the `USING`/`ON` expressions of
the `TABLES` zone). -/
def ddVisitJoin (jn : Option (JoinInfo AST)) (st : DDState) :
    Option (JoinInfo AST) × DDState :=
  match jn with
  | none => (none, st)
  | some ⟨k, s, ul, oe⟩ =>
      let p1 := ddVisitOptList ul st
      let p2 := ddVisitOpt oe p1.2
      (some ⟨k, s, p1.1, p2.1⟩, p2.2)
termination_by sizeOf jn

end

/-- `optimizeDuplicateDistinct` (the single-argument entry point). -/
def optimizeDuplicateDistinct (t : AST) : AST := (ddVisit t (false, [])).1

/-- Modelled from the spec: `GetAggregatesVisitor` and
`assertNoAggregates` live in `Interpreters/GetAggregatesVisitor.h`,
outside this translation unit.  Per §4.10 the pre-check asserts that no
aggregate function appears anywhere under a node: this predicate holds
iff a function whose name is a known aggregate occurs in the subtree. -/
def hasAggregateCall (ctx : Ctx) (t : AST) : Bool :=
  (match t with | .func n _ _ => ctx.isAggregate n | _ => false)
  || t.childrenList.attach.any fun ⟨c, _⟩ => hasAggregateCall ctx c
termination_by sizeOf t
decreasing_by have := sizeOf_lt_of_mem_childrenList ‹c ∈ _›; omega

/-- Modelled from the spec: the collection phase of
`GetAggregatesVisitor` (outside this translation unit) — "collect every
`ASTFunction` whose name is a known aggregate", in pre-order. -/
def collectAggregates (ctx : Ctx) (t : AST) : List AST :=
  (if (match t with | .func n _ _ => ctx.isAggregate n | _ => false) then [t] else [])
    ++ (t.childrenList.attach.map fun ⟨c, _⟩ => collectAggregates ctx c).flatten
termination_by sizeOf t
decreasing_by have := sizeOf_lt_of_mem_childrenList ‹c ∈ _›; omega

/-- Modelled from the spec: `assertNoAggregates(node, description)`
throws `ILLEGAL_AGGREGATION` when an aggregate call occurs under the
node. -/
def assertNoAggregates (ctx : Ctx) (t : AST) : Except Err Unit :=
  if hasAggregateCall ctx t then .error .illegalAggregation else .ok ()

/-- The final loop of `getAggregates`: for every collected aggregate,
assert that no aggregate occurs inside any of its arguments. -/
def checkNestedAggregates (ctx : Ctx) : List AST → Except Err Unit
  | [] => .ok ()
  | a :: rest =>
      match a with
      | .func _ _ args =>
          if args.any (hasAggregateCall ctx) then .error .illegalAggregation
          else checkNestedAggregates ctx rest
      | _ => checkNestedAggregates ctx rest

/-- The `if (select_query.where()) assertNoAggregates(...)` guard:
assert only when the clause is present. -/
def assertOptionNoAggregates (ctx : Ctx) (o : Option AST) : Except Err Unit :=
  match o with
  | some w => assertNoAggregates ctx w
  | none => .ok ()

/-- `getAggregates(query, select_query)`: `query` is the select node
carrying `q`. -/
def getAggregates (ctx : Ctx) (query : AST) (q : SelectData AST) :
    Except Err (List AST) := do
  let _ ← assertOptionNoAggregates ctx q.whereC
  let _ ← assertOptionNoAggregates ctx q.prewhereC
  let aggs := collectAggregates ctx query
  let _ ← checkNestedAggregates ctx aggs
  .ok aggs

/-- Split a character list at the first dot. -/
def splitDot : List Char → Option (List Char × List Char)
  | [] => none
  | c :: cs =>
      if c = '.' then some ([], cs)
      else (splitDot cs).map fun p => (c :: p.1, p.2)

/-- Modelled from the spec: `Nested::splitName`
(`DataTypes/NestedUtils.h`, outside this translation unit) — "split the
name at the first `.`" (§4.8); a name without a dot has an empty second
component. -/
def Nested.splitName (name : String) : String × String :=
  match splitDot name.data with
  | none => (name, "")
  | some (a, b) => (String.mk a, String.mk b)

/-- Modelled from the spec: `Nested::concatenateName` (outside this
translation unit) — joins a nested-table name and a subcolumn name with
a dot. -/
def Nested.concatenateName (name_part sub : String) : String :=
  if sub.isEmpty then name_part else name_part ++ "." ++ sub

/-- The nested-table loop of the `getArrayJoinedColumns` fallback: the
first source column whose split prefix equals `source_name` with a
non-empty suffix produces the single mapping entry; no match throws
`EMPTY_NESTED_TABLE`. -/
def arrayJoinFallbackLoop (result_name source_name : String) :
    List String → Except Err (List (String × String))
  | [] => .error .emptyNestedTable
  | column :: rest =>
      let sp := Nested.splitName column
      if sp.1 = source_name ∧ sp.2 ≠ "" then
        .ok [(Nested.concatenateName result_name sp.2, column)]
      else arrayJoinFallbackLoop result_name source_name rest

/-- The `if (result.array_join_result_to_source.empty())` block of
`getArrayJoinedColumns`: synthesize the mapping entries added for the
first `ARRAY JOIN` expression (`source_columns` lists the names of the
source `NamesAndTypesList`, in order). -/
def getArrayJoinedColumnsFallback (expr : AST) (source_columns : List String)
    (source_columns_set : List String) : Except Err (List (String × String)) :=
  let source_name := expr.columnName
  let result_name := expr.aliasOrColumnName
  if !expr.isIdent || source_columns_set.contains source_name then
    .ok [(result_name, source_name)]
  else
    arrayJoinFallbackLoop result_name source_name source_columns

/-- `IStorage::getColumnSizes()` entry (`ColumnSize` fields used by
`collectUsedColumns`). -/
structure ColumnSize : Type where
  data_compressed : Nat
  data_uncompressed : Nat
  deriving Repr, DecidableEq

/-- A source column as seen by `collectUsedColumns`: its name and the
size information of its data type. -/
structure SourceColumn : Type where
  name : String
  /-- `type->haveMaximumSizeOfValue()`. -/
  haveMaximumSizeOfValue : Bool
  /-- `type->getMaximumSizeOfValueInMemory()`. -/
  maximumSizeOfValueInMemory : Nat
  /-- the in-memory value size consulted by `getSmallestColumn`. -/
  sizeOfValueInMemory : Nat
  deriving Repr, DecidableEq

/-- The storage handle: `getColumnSizes()` as a partial map. -/
structure StorageModel : Type where
  columnSizes : String → Option ColumnSize

/-- The `ColumnSizeTuple` struct of `collectUsedColumns`. -/
structure ColumnSizeTuple : Type where
  compressed_size : Nat
  type_size : Nat
  uncompressed_size : Nat
  name : String
  deriving Repr, DecidableEq

/-- `ColumnSizeTuple::operator<`: lexicographic on
`(compressed_size, type_size, uncompressed_size)`; the name does not
participate. -/
def cstLt (a b : ColumnSizeTuple) : Bool :=
  a.compressed_size < b.compressed_size ||
    (a.compressed_size = b.compressed_size &&
      (a.type_size < b.type_size ||
        (a.type_size = b.type_size && a.uncompressed_size < b.uncompressed_size)))

/-- `std::min_element` over the remaining tuples: replace the current
minimum only on strict `<`, so the first minimum wins. -/
def minElementLoop (cur : ColumnSizeTuple) : List ColumnSizeTuple → ColumnSizeTuple
  | [] => cur
  | c :: rest => minElementLoop (if cstLt c cur then c else cur) rest

/-- The `columns` vector built by `collectUsedColumns` when storage is
present: one tuple per source column that has storage sizes, with
`type_size = 100` when the type has no maximum value size. -/
def buildSizeTuples (storage : StorageModel) (source_columns : List SourceColumn) :
    List ColumnSizeTuple :=
  source_columns.filterMap fun sc =>
    (storage.columnSizes sc.name).map fun cs =>
      ⟨cs.data_compressed,
       if sc.haveMaximumSizeOfValue then sc.maximumSizeOfValueInMemory else 100,
       cs.data_uncompressed, sc.name⟩

/-- Modelled from the spec: `ExpressionActions::getSmallestColumn` is in
`Interpreters/ExpressionActions.cpp`, outside this translation unit.
Per §4.11 it picks "the source column whose data type has the smallest
in-memory size" (first minimum in column order). -/
def getSmallestColumn (source_columns : List SourceColumn) : String :=
  match source_columns with
  | [] => ""
  | c :: rest =>
      (rest.foldl
        (fun best sc =>
          if sc.sizeOfValueInMemory < best.sizeOfValueInMemory then sc else best)
        c).name

/-- The column picked by the trivial-count branch of
`collectUsedColumns`. -/
def chooseTrivialCountColumn (storage : Option StorageModel)
    (source_columns : List SourceColumn) : String :=
  let columns :=
    match storage with
    | some st => buildSizeTuples st source_columns
    | none => []
  match columns with
  | [] => getSmallestColumn source_columns
  | c :: rest => (minElementLoop c rest).name

/-- The `if (select_query && required.empty())` branch of
`collectUsedColumns`: set `maybe_optimize_trivial_count` and insert the
single cheapest readable column. -/
def collectUsedColumnsTrivialCount (is_select : Bool) (required : List String)
    (storage : Option StorageModel) (source_columns : List SourceColumn) :
    Bool × List String :=
  if is_select ∧ required.isEmpty then
    (true, [chooseTrivialCountColumn storage source_columns])
  else (false, required)

/-- The joined-columns promotion loop of `collectUsedColumns` (the
`columns_context.has_table_join` block): returns the required set after
the loop and the columns promoted by `addJoinedColumn`, in order.
`available_columns` are the source-column names; `nameInclusion` and
`rightKeyInclusion` are read from the columns context / analyzed join. -/
def processJoinedColumns (available_columns : List String)
    (nameInclusion rightKeyInclusion : String → Nat) :
    List String → List String → List String × List String
  | required, [] => (required, [])
  | required, name :: rest =>
      if available_columns.contains name then
        processJoinedColumns available_columns nameInclusion rightKeyInclusion
          required rest
      else if required.contains name then
        let p := processJoinedColumns available_columns nameInclusion rightKeyInclusion
          (required.filter fun s => s ≠ name) rest
        (p.1, if nameInclusion name > rightKeyInclusion name then name :: p.2 else p.2)
      else
        processJoinedColumns available_columns nameInclusion rightKeyInclusion
          required rest

@[simp] theorem exceptBind_ok {ε α β : Type} (a : α) (f : α → Except ε β) :
    (Except.ok a >>= f : Except ε β) = f a := rfl

@[simp] theorem exceptBind_error {ε α β : Type} (e : ε) (f : α → Except ε β) :
    (Except.error e >>= f : Except ε β) = Except.error e := rfl

/-- C5: for a select with a join of `Unspecified` strictness and
non-`Cross` kind, the defaulting step sets `Any` under setting `ANY` and
`All` under setting `ALL`; `setJoinStrictness` raises
`EXPECTED_ALL_OR_ANY` exactly when the setting is empty; joins that are
`Cross` or already have a strictness are left unchanged by the
defaulting step. -/
theorem setJoinStrictness_defaulting_spec :
    (∀ (q : SelectData AST) (j : JoinInfo AST) (oa : Bool) (jds : JoinDefault),
      q.join = some j → j.strictness = JoinStrictness.unspecified →
      j.kind ≠ JoinKind.cross →
      ((jds = JoinDefault.any →
          joinDefaultStep j jds = .ok { j with strictness := JoinStrictness.any }) ∧
       (jds = JoinDefault.all →
          joinDefaultStep j jds = .ok { j with strictness := JoinStrictness.all }) ∧
       (setJoinStrictness q jds oa = .error Err.expectedAllOrAny ↔
          jds = JoinDefault.unspecified))) ∧
    (∀ (j : JoinInfo AST) (jds : JoinDefault),
      (j.strictness ≠ JoinStrictness.unspecified ∨ j.kind = JoinKind.cross) →
      joinDefaultStep j jds = .ok j) := by
  constructor
  · intro q j oa jds hj hu hk
    refine ⟨?_, ?_, ?_⟩
    · rintro rfl
      simp [joinDefaultStep, hu, hk]
    · rintro rfl
      simp [joinDefaultStep, hu, hk]
    · constructor
      · intro herr
        cases jds with
        | unspecified => rfl
        | all =>
            exfalso
            simp only [setJoinStrictness, hj, joinDefaultStep, hu, hk] at herr
            simp only [ne_eq, not_false_eq_true, and_self, if_true, exceptBind_ok] at herr
            simp only [joinOldAnyStep] at herr
            split_ifs at herr <;> by_cases hfull : j.kind = JoinKind.full <;> simp_all
        | any =>
            exfalso
            simp only [setJoinStrictness, hj, joinDefaultStep, hu, hk] at herr
            simp only [ne_eq, not_false_eq_true, and_self, if_true, exceptBind_ok] at herr
            simp only [joinOldAnyStep] at herr
            split_ifs at herr <;> by_cases hfull : j.kind = JoinKind.full <;> simp_all
      · rintro rfl
        simp [setJoinStrictness, hj, joinDefaultStep, hu, hk]
  · intro j jds hor
    rcases hor with h | h
    · simp [joinDefaultStep, h]
    · simp only [joinDefaultStep]
      rw [if_neg]
      simp [h]

/-- An empty select query, the base of the concrete fixtures. -/
def emptySelect : SelectData AST :=
  ⟨false, false, [], [], none, none, none, none, none, none, none, none,
   none, none, none⟩

/-- Concrete fixture for the C5 witness: `SELECT ... JOIN` with
unspecified strictness. -/
def qC5 : SelectData AST :=
  { emptySelect with
    selectList := [AST.asterisk],
    join := some ⟨JoinKind.inner, JoinStrictness.unspecified, none,
      some (AST.ident "k" none)⟩ }

theorem setJoinStrictness_defaulting_spec_witness :
    qC5.join = some ⟨JoinKind.inner, JoinStrictness.unspecified, none,
        some (AST.ident "k" none)⟩ ∧
    joinDefaultStep ⟨JoinKind.inner, JoinStrictness.unspecified, none,
        some (AST.ident "k" none)⟩ JoinDefault.all
      = .ok ⟨JoinKind.inner, JoinStrictness.all, none, some (AST.ident "k" none)⟩ ∧
    (setJoinStrictness qC5 JoinDefault.unspecified false
      = .error Err.expectedAllOrAny) := by
  have h := setJoinStrictness_defaulting_spec.1 qC5
    ⟨JoinKind.inner, JoinStrictness.unspecified, none, some (AST.ident "k" none)⟩
    false JoinDefault.all rfl rfl (by decide)
  have h2 := setJoinStrictness_defaulting_spec.1 qC5
    ⟨JoinKind.inner, JoinStrictness.unspecified, none, some (AST.ident "k" none)⟩
    false JoinDefault.unspecified rfl rfl (by decide)
  exact ⟨rfl, h.2.1 rfl, h2.2.2.mpr rfl⟩

theorem arrayJoinFallbackLoop_found (rn sn : String) (l1 l2 : List String)
    (column : String)
    (hl1 : ∀ co ∈ l1,
      ¬((Nested.splitName co).1 = sn ∧ (Nested.splitName co).2 ≠ ""))
    (hc : (Nested.splitName column).1 = sn ∧ (Nested.splitName column).2 ≠ "") :
    arrayJoinFallbackLoop rn sn (l1 ++ column :: l2)
      = .ok [(Nested.concatenateName rn (Nested.splitName column).2, column)] := by
  induction l1 with
  | nil =>
      simp only [List.nil_append, arrayJoinFallbackLoop]
      rw [if_pos hc]
  | cons a l ih =>
      have ha := hl1 a (by simp)
      rw [List.cons_append]
      simp only [arrayJoinFallbackLoop]
      rw [if_neg ha]
      exact ih fun co hco => hl1 co (by simp [hco])

theorem arrayJoinFallbackLoop_none (rn sn : String) (l : List String)
    (h : ∀ co ∈ l,
      ¬((Nested.splitName co).1 = sn ∧ (Nested.splitName co).2 ≠ "")) :
    arrayJoinFallbackLoop rn sn l = .error .emptyNestedTable := by
  induction l with
  | nil => rfl
  | cons a l2 ih =>
      simp only [arrayJoinFallbackLoop]
      rw [if_neg (h a (by simp))]
      exact ih fun co hco => h co (by simp [hco])

/-- C2 (counterexample): with `ARRAY JOIN n` over source columns
`n.a, n.b`, the nested-table fallback produces only the entry for `n.a`
— the loop `break`s after the first matching column — so the claimed
entry `n.b → n.b` is absent from the produced map. -/
theorem arrayJoinNestedTable_counterexample :
    getArrayJoinedColumnsFallback (AST.ident "n" none) ["n.a", "n.b"]
        ["n.a", "n.b"] = .ok [("n.a", "n.a")] ∧
    ("n.b", "n.b") ∉ [(("n.a", "n.a") : String × String)] := by
  constructor
  · have hcn : (AST.ident "n" none).columnName = "n" := by
      simp [AST.columnName]
    have han : (AST.ident "n" none).aliasOrColumnName = "n" := by
      simp [AST.aliasOrColumnName, AST.aliasOf, hcn]
    simp only [getArrayJoinedColumnsFallback, hcn, han, AST.isIdent]
    norm_num
    rw [if_neg (by decide)]
    simp [arrayJoinFallbackLoop, Nested.splitName, splitDot,
      Nested.concatenateName, String.data]
    decide
  · decide

/-- C2 (amended): when the resolver map is empty and the first
`ARRAY JOIN` expression is an identifier that does not name a source
column, exactly one entry is synthesized — for the FIRST source column
(in source order) whose name splits at the first dot into the
identifier's name and a non-empty suffix — and the analysis fails with
`EMPTY_NESTED_TABLE` exactly when no source column matches. -/
theorem arrayJoinNestedTable_first_match_spec :
    (∀ (expr : AST) (l1 l2 sset : List String) (column : String),
      expr.isIdent = true →
      sset.contains expr.columnName = false →
      (∀ co ∈ l1,
        ¬((Nested.splitName co).1 = expr.columnName ∧
          (Nested.splitName co).2 ≠ "")) →
      ((Nested.splitName column).1 = expr.columnName ∧
        (Nested.splitName column).2 ≠ "") →
      getArrayJoinedColumnsFallback expr (l1 ++ column :: l2) sset
        = .ok [(Nested.concatenateName expr.aliasOrColumnName
                  (Nested.splitName column).2, column)]) ∧
    (∀ (expr : AST) (l sset : List String),
      expr.isIdent = true →
      sset.contains expr.columnName = false →
      (∀ co ∈ l,
        ¬((Nested.splitName co).1 = expr.columnName ∧
          (Nested.splitName co).2 ≠ "")) →
      getArrayJoinedColumnsFallback expr l sset = .error .emptyNestedTable) := by
  constructor
  · intro expr l1 l2 sset column hid hnot hl1 hc
    simp only [getArrayJoinedColumnsFallback, hid, hnot, Bool.not_true,
      Bool.false_or, if_false]
    exact arrayJoinFallbackLoop_found _ _ l1 l2 column hl1 hc
  · intro expr l sset hid hnot hl
    simp only [getArrayJoinedColumnsFallback, hid, hnot, Bool.not_true,
      Bool.false_or, if_false]
    exact arrayJoinFallbackLoop_none _ _ l hl

theorem unusedColumnLoop_spec (cols : List String) :
    ∀ (fuel n : Nat),
      (∃ k, k < fuel ∧ cols.contains (decimalRepr (n + k)) = false) →
      cols.contains (decimalRepr (unusedColumnLoop cols fuel n)) = false ∧
      n ≤ unusedColumnLoop cols fuel n ∧
      ∀ m, n ≤ m → m < unusedColumnLoop cols fuel n →
        cols.contains (decimalRepr m) = true := by
  intro fuel
  induction fuel with
  | zero =>
      rintro n ⟨k, hk, _⟩
      omega
  | succ f ih =>
      rintro n ⟨k, hk, hnc⟩
      by_cases h : cols.contains (decimalRepr n) = true
      · have hk0 : k ≠ 0 := by
          rintro rfl
          simp only [Nat.add_zero] at hnc
          rw [h] at hnc
          cases hnc
        have hex : ∃ k2, k2 < f ∧ cols.contains (decimalRepr (n + 1 + k2)) = false := by
          refine ⟨k - 1, by omega, ?_⟩
          have : n + 1 + (k - 1) = n + k := by omega
          rw [this]
          exact hnc
        have hres := ih (n + 1) hex
        have hloop : unusedColumnLoop cols (f + 1) n = unusedColumnLoop cols f (n + 1) := by
          rw [unusedColumnLoop, if_pos h]
        rw [hloop]
        refine ⟨hres.1, by omega, ?_⟩
        intro m hm1 hm2
        by_cases hmn : m = n
        · subst hmn; exact h
        · exact hres.2.2 m (by omega) hm2
      · have hloop : unusedColumnLoop cols (f + 1) n = n := by
          rw [unusedColumnLoop, if_neg h]
        rw [hloop]
        refine ⟨by simpa using h, Nat.le_refl n, ?_⟩
        intro m hm1 hm2
        omega

theorem exists_unused_decimal (cols : List String) :
    ∃ k, k < cols.length + 1 ∧ cols.contains (decimalRepr k) = false := by
  by_contra hcon
  push_neg at hcon
  have hall : ∀ k, k < cols.length + 1 → decimalRepr k ∈ cols := by
    intro k hk
    have := hcon k hk
    rcases hb : cols.contains (decimalRepr k) with _ | _
    · exact absurd hb this
    · simpa using hb
  have hnodup : ((List.range (cols.length + 1)).map decimalRepr).Nodup :=
    (List.nodup_range _).map decimalRepr_injective
  have hsub : ((List.range (cols.length + 1)).map decimalRepr).toFinset ⊆
      cols.toFinset := by
    intro x hx
    rw [List.mem_toFinset] at hx ⊢
    rw [List.mem_map] at hx
    obtain ⟨k, hk, rfl⟩ := hx
    exact hall k (List.mem_range.mp hk)
  have hc1 : ((List.range (cols.length + 1)).map decimalRepr).toFinset.card
      = cols.length + 1 := by
    rw [List.toFinset_card_of_nodup hnodup]
    simp
  have hc2 := Finset.card_le_card hsub
  have hc3 := cols.toFinset_card_le
  omega

theorem unusedColumnNat_spec (cols : List String) :
    cols.contains (decimalRepr (unusedColumnNat cols)) = false ∧
    ∀ m < unusedColumnNat cols, cols.contains (decimalRepr m) = true := by
  have hex := exists_unused_decimal cols
  have h := unusedColumnLoop_spec cols (cols.length + 1) 0 (by simpa using hex)
  exact ⟨h.1, fun m hm => h.2.2 m (Nat.zero_le m) hm⟩

/-- C4: whenever `optimizeGroupBy` succeeds on a select that has a
`HAVING` clause and whose `GROUP BY` either is absent or simplifies to
the empty list, the result carries a synthetic `GROUP BY` holding the
single integer literal whose decimal rendering is the smallest
non-negative integer that is not a source-column name. -/
theorem optimizeGroupBy_trivial_constant (ctx : Ctx) (cols : List String)
    (q q2 : SelectData AST)
    (hok : optimizeGroupBy q cols ctx = .ok q2)
    (hhv : q.having.isSome = true)
    (hemp : q.groupBy = none ∨
      ∃ l, q.groupBy = some l ∧ gbLoop ctx [] l = .ok []) :
    q2.groupBy = some [AST.lit (Val.vnum (unusedColumnNat cols)) none] ∧
    cols.contains (decimalRepr (unusedColumnNat cols)) = false ∧
    ∀ m < unusedColumnNat cols, cols.contains (decimalRepr m) = true := by
  have hspec := unusedColumnNat_spec cols
  refine ⟨?_, hspec.1, hspec.2⟩
  rcases hemp with hnone | ⟨l, hsome, hloop⟩
  · simp only [optimizeGroupBy, hnone, hhv, if_true, Except.ok.injEq] at hok
    rw [← hok]
    simp [appendUnusedGroupByColumn]
  · simp only [optimizeGroupBy, hsome, hloop, List.isEmpty_nil, if_true,
      Except.ok.injEq] at hok
    rw [← hok]
    simp [appendUnusedGroupByColumn]

/-- A concrete context: no stateful functions, no injective dictionary
attributes, `count` is the only aggregate. -/
def ctx0 : Ctx := ⟨fun _ => false, fun _ _ => false, fun n => n == "count"⟩

/-- Concrete fixture for the C4 witness:
`SELECT count() FROM t HAVING count() > 0` (no `GROUP BY`). -/
def qC4 : SelectData AST :=
  { emptySelect with
    selectList := [AST.func "count" none []],
    tables := [AST.tableExpr (some (AST.ident "t" none)) none none],
    having := some (AST.func "greater" none
      [AST.func "count" none [], AST.lit (Val.vnum 0) none]) }

theorem optimizeGroupBy_trivial_constant_witness :
    (appendUnusedGroupByColumn qC4 ["x"]).groupBy
      = some [AST.lit (Val.vnum (unusedColumnNat ["x"])) none] ∧
    (["x"] : List String).contains (decimalRepr (unusedColumnNat ["x"])) = false ∧
    ∀ m < unusedColumnNat ["x"],
      (["x"] : List String).contains (decimalRepr m) = true :=
  optimizeGroupBy_trivial_constant ctx0 ["x"] qC4
    (appendUnusedGroupByColumn qC4 ["x"])
    (by simp [optimizeGroupBy, qC4, emptySelect]) rfl (Or.inl rfl)

theorem arrayJoinNestedTable_first_match_spec_witness :
    getArrayJoinedColumnsFallback (AST.ident "n" none) (["x"] ++ "n.a" :: ["zz"]) ["x"]
      = .ok [(Nested.concatenateName (AST.ident "n" none).aliasOrColumnName
               (Nested.splitName "n.a").2, "n.a")] ∧
    getArrayJoinedColumnsFallback (AST.ident "n" none) ["x"] ["x"]
      = .error .emptyNestedTable := by
  constructor
  · exact arrayJoinNestedTable_first_match_spec.1 (AST.ident "n" none) ["x"] ["zz"]
      ["x"] "n.a" rfl (by simp [AST.columnName])
      (by
        intro co hco
        simp only [List.mem_singleton] at hco
        subst hco
        simp [Nested.splitName, splitDot, AST.columnName, String.data])
      (by simp [Nested.splitName, splitDot, AST.columnName, String.data])
  · exact arrayJoinNestedTable_first_match_spec.2 (AST.ident "n" none) ["x"] ["x"]
      rfl (by simp [AST.columnName])
      (by
        intro co hco
        simp only [List.mem_singleton] at hco
        subst hco
        simp [Nested.splitName, splitDot, AST.columnName, String.data])

theorem cstLt_true_iff (a b : ColumnSizeTuple) :
    cstLt a b = true ↔
      (a.compressed_size < b.compressed_size ∨
        (a.compressed_size = b.compressed_size ∧
          (a.type_size < b.type_size ∨
            (a.type_size = b.type_size ∧
              a.uncompressed_size < b.uncompressed_size)))) := by
  simp only [cstLt, Bool.or_eq_true, Bool.and_eq_true, decide_eq_true_eq]

theorem minElementLoop_spec (l : List ColumnSizeTuple) :
    ∀ cur : ColumnSizeTuple,
      (minElementLoop cur l = cur ∨ minElementLoop cur l ∈ l) ∧
      ∀ u, (u = cur ∨ u ∈ l) → cstLt u (minElementLoop cur l) = false := by
  induction l with
  | nil =>
      intro cur
      refine ⟨Or.inl rfl, ?_⟩
      rintro u (rfl | hu)
      · rw [minElementLoop, Bool.eq_false_iff, ne_eq, cstLt_true_iff]
        omega
      · cases hu
  | cons c rest ih =>
      intro cur
      rw [minElementLoop]
      by_cases hlt : cstLt c cur = true
      · rw [if_pos hlt]
        have hm := ih c
        constructor
        · rcases hm.1 with he | he
          · exact Or.inr (by rw [he]; exact List.mem_cons_self c rest)
          · exact Or.inr (List.mem_cons_of_mem _ he)
        · rintro u (rfl | hu)
          · have hc := hm.2 c (Or.inl rfl)
            rw [Bool.eq_false_iff, ne_eq, cstLt_true_iff] at hc ⊢
            rw [cstLt_true_iff] at hlt
            omega
          · rcases List.mem_cons.mp hu with rfl | hu2
            · exact hm.2 u (Or.inl rfl)
            · exact hm.2 u (Or.inr hu2)
      · rw [if_neg hlt]
        have hm := ih cur
        constructor
        · rcases hm.1 with he | he
          · exact Or.inl he
          · exact Or.inr (List.mem_cons_of_mem _ he)
        · rintro u (rfl | hu)
          · exact hm.2 u (Or.inl rfl)
          · rcases List.mem_cons.mp hu with rfl | hu2
            · have hcur := hm.2 cur (Or.inl rfl)
              rw [Bool.not_eq_true] at hlt
              rw [Bool.eq_false_iff, ne_eq, cstLt_true_iff] at hcur hlt ⊢
              omega
            · exact hm.2 u (Or.inr hu2)

theorem smallestColumnFold_spec (rest : List SourceColumn) :
    ∀ c : SourceColumn,
      (rest.foldl
          (fun best sc =>
            if sc.sizeOfValueInMemory < best.sizeOfValueInMemory then sc else best)
          c = c ∨
        rest.foldl
          (fun best sc =>
            if sc.sizeOfValueInMemory < best.sizeOfValueInMemory then sc else best)
          c ∈ rest) ∧
      ∀ u, (u = c ∨ u ∈ rest) →
        (rest.foldl
            (fun best sc =>
              if sc.sizeOfValueInMemory < best.sizeOfValueInMemory then sc else best)
            c).sizeOfValueInMemory ≤ u.sizeOfValueInMemory := by
  induction rest with
  | nil =>
      intro c
      refine ⟨Or.inl rfl, ?_⟩
      rintro u (rfl | hu)
      · simp
      · cases hu
  | cons sc rest2 ih =>
      intro c
      rw [List.foldl_cons]
      by_cases hlt : sc.sizeOfValueInMemory < c.sizeOfValueInMemory
      · rw [if_pos hlt]
        have hm := ih sc
        constructor
        · rcases hm.1 with he | he
          · exact Or.inr (by rw [he]; exact List.mem_cons_self sc rest2)
          · exact Or.inr (List.mem_cons_of_mem _ he)
        · rintro u (rfl | hu)
          · have := hm.2 sc (Or.inl rfl)
            omega
          · rcases List.mem_cons.mp hu with rfl | hu2
            · exact hm.2 u (Or.inl rfl)
            · exact hm.2 u (Or.inr hu2)
      · rw [if_neg hlt]
        have hm := ih c
        constructor
        · rcases hm.1 with he | he
          · exact Or.inl he
          · exact Or.inr (List.mem_cons_of_mem _ he)
        · rintro u (rfl | hu)
          · exact hm.2 u (Or.inl rfl)
          · rcases List.mem_cons.mp hu with rfl | hu2
            · have := hm.2 c (Or.inl rfl)
              omega
            · exact hm.2 u (Or.inr hu2)

/-- C3: in `collectUsedColumns`, when the required set is empty and the
query is a `SELECT`, `maybe_optimize_trivial_count` is set and exactly
one column is inserted into the required set: a column minimizing
`(compressed_size, type_size, uncompressed_size)` over the columns with
storage-provided sizes, or — when that tuple list is empty — a source
column of minimal in-memory data-type size. -/
theorem collectUsedColumns_trivial_pick (required : List String)
    (storage : Option StorageModel) (source_columns : List SourceColumn)
    (hreq : required = []) (hne : source_columns ≠ []) :
    (collectUsedColumnsTrivialCount true required storage source_columns).1 = true ∧
    (collectUsedColumnsTrivialCount true required storage source_columns).2 =
      [chooseTrivialCountColumn storage source_columns] ∧
    (∀ st tuples, storage = some st →
      buildSizeTuples st source_columns = tuples → tuples ≠ [] →
      ∃ t ∈ tuples, t.name = chooseTrivialCountColumn storage source_columns ∧
        ∀ u ∈ tuples, cstLt u t = false) ∧
    ((match storage with
        | some st => buildSizeTuples st source_columns
        | none => []) = [] →
      ∃ sc ∈ source_columns,
        sc.name = chooseTrivialCountColumn storage source_columns ∧
        ∀ u ∈ source_columns,
          sc.sizeOfValueInMemory ≤ u.sizeOfValueInMemory) := by
  subst hreq
  refine ⟨by simp [collectUsedColumnsTrivialCount],
          by simp [collectUsedColumnsTrivialCount], ?_, ?_⟩
  · rintro st tuples rfl htup hne2
    match htup2 : buildSizeTuples st source_columns with
    | [] => exact absurd (htup ▸ htup2.symm).symm hne2
    | c :: rest =>
        have hspec := minElementLoop_spec rest c
        refine ⟨minElementLoop c rest, ?_, ?_, ?_⟩
        · rw [← htup, htup2]
          rcases hspec.1 with he | he
          · rw [he]; exact List.mem_cons_self c rest
          · exact List.mem_cons_of_mem _ he
        · simp [chooseTrivialCountColumn, htup2]
        · intro u hu
          rw [← htup, htup2] at hu
          rcases List.mem_cons.mp hu with rfl | hu2
          · exact hspec.2 u (Or.inl rfl)
          · exact hspec.2 u (Or.inr hu2)
  · intro hempty
    match hsc : source_columns with
    | [] => exact absurd rfl hne
    | c :: rest =>
        have hspec := smallestColumnFold_spec rest c
        refine ⟨rest.foldl
          (fun best sc =>
            if sc.sizeOfValueInMemory < best.sizeOfValueInMemory then sc else best)
          c, ?_, ?_, ?_⟩
        · rcases hspec.1 with he | he
          · rw [he]; exact List.mem_cons_self c rest
          · exact List.mem_cons_of_mem _ he
        · simp only [chooseTrivialCountColumn, hempty, getSmallestColumn]
        · intro u hu
          rcases List.mem_cons.mp hu with rfl | hu2
          · exact hspec.2 u (Or.inl rfl)
          · exact hspec.2 u (Or.inr hu2)

/-- Storage fixture of spec scenario 5: `a` compresses to 100, `b` and
`c` to 50, and `c` has the smaller type. -/
def storageW : StorageModel :=
  ⟨fun n =>
    if n = "a" then some ⟨100, 1000⟩
    else if n = "b" then some ⟨50, 500⟩
    else if n = "c" then some ⟨50, 500⟩
    else none⟩

/-- Source columns of spec scenario 5. -/
def srcW : List SourceColumn :=
  [⟨"a", true, 8, 8⟩, ⟨"b", true, 8, 8⟩, ⟨"c", true, 4, 4⟩]

theorem collectUsedColumns_trivial_pick_witness :
    (collectUsedColumnsTrivialCount true [] (some storageW) srcW).1 = true ∧
    (collectUsedColumnsTrivialCount true [] (some storageW) srcW).2
      = [chooseTrivialCountColumn (some storageW) srcW] ∧
    chooseTrivialCountColumn (some storageW) srcW = "c" :=
  ⟨(collectUsedColumns_trivial_pick [] (some storageW) srcW rfl (by decide)).1,
   (collectUsedColumns_trivial_pick [] (some storageW) srcW rfl (by decide)).2.1,
   rfl⟩

/-- C10: invariants of the joined-columns block of `collectUsedColumns`.
A joined column whose name is a source column is never promoted (conjunct
3 forces promoted names out of `available`) and never erased from the
required set (conjunct 2); a promoted column satisfies
`nameInclusion > rightKeyInclusion` and was required; a required joined
column not among the source columns is always erased from the required
set (conjunct 4); and the loop never adds names to the required set
(conjunct 1). -/
theorem processJoinedColumns_spec (available : List String)
    (nI rKI : String → Nat) :
    ∀ (joined required : List String),
      (∀ name, name ∈ (processJoinedColumns available nI rKI required joined).1 →
        name ∈ required) ∧
      (∀ name, available.contains name = true → name ∈ required →
        name ∈ (processJoinedColumns available nI rKI required joined).1) ∧
      (∀ name, name ∈ (processJoinedColumns available nI rKI required joined).2 →
        available.contains name = false ∧ nI name > rKI name ∧ name ∈ required) ∧
      (∀ name, name ∈ joined → available.contains name = false →
        name ∈ required →
        name ∉ (processJoinedColumns available nI rKI required joined).1) := by
  intro joined
  induction joined with
  | nil =>
      intro required
      refine ⟨fun n h => h, fun n _ h => h, fun n h => absurd h (by simp [processJoinedColumns]), ?_⟩
      rintro n hn
      cases hn
  | cons name rest ih =>
      intro required
      by_cases hav : available.contains name = true
      · have heq : processJoinedColumns available nI rKI required (name :: rest)
            = processJoinedColumns available nI rKI required rest := by
          rw [processJoinedColumns, if_pos hav]
        rw [heq]
        have hres := ih required
        refine ⟨hres.1, hres.2.1, hres.2.2.1, ?_⟩
        intro n hn hnav hnreq
        rcases List.mem_cons.mp hn with rfl | hn2
        · rw [hav] at hnav; cases hnav
        · exact hres.2.2.2 n hn2 hnav hnreq
      · rw [Bool.not_eq_true] at hav
        by_cases hreq : required.contains name = true
        · have heq : processJoinedColumns available nI rKI required (name :: rest)
              = ((processJoinedColumns available nI rKI
                    (required.filter fun s => s ≠ name) rest).1,
                 if nI name > rKI name then
                   name :: (processJoinedColumns available nI rKI
                     (required.filter fun s => s ≠ name) rest).2
                 else (processJoinedColumns available nI rKI
                   (required.filter fun s => s ≠ name) rest).2) := by
            rw [processJoinedColumns, if_neg (by rw [hav]; exact Bool.false_ne_true),
              if_pos hreq]
          rw [heq]
          have hres := ih (required.filter fun s => s ≠ name)
          have hsub : ∀ n, n ∈ (required.filter fun s => s ≠ name) → n ∈ required := by
            intro n hn
            exact (List.mem_filter.mp hn).1
          refine ⟨?_, ?_, ?_, ?_⟩
          · intro n hn
            exact hsub n (hres.1 n hn)
          · intro n hnav hnreq
            have hne : n ≠ name := by
              rintro rfl
              rw [hnav] at hav
              cases hav
            exact hres.2.1 n hnav
              (List.mem_filter.mpr ⟨hnreq, by simpa using hne⟩)
          · intro n hn
            by_cases hni : nI name > rKI name
            · rw [if_pos hni] at hn
              rcases List.mem_cons.mp hn with rfl | hn2
              · exact ⟨hav, hni, by simpa using hreq⟩
              · have h3 := hres.2.2.1 n hn2
                exact ⟨h3.1, h3.2.1, hsub n h3.2.2⟩
            · rw [if_neg hni] at hn
              have h3 := hres.2.2.1 n hn
              exact ⟨h3.1, h3.2.1, hsub n h3.2.2⟩
          · intro n hn hnav hnreq
            by_cases hne : n = name
            · subst hne
              intro hmem
              have := hres.1 n hmem
              rw [List.mem_filter] at this
              simp at this
            · rcases List.mem_cons.mp hn with heq2 | hn2
              · exact absurd heq2 hne
              · exact hres.2.2.2 n hn2 hnav
                  (List.mem_filter.mpr ⟨hnreq, by simpa using hne⟩)
        · rw [Bool.not_eq_true] at hreq
          have heq : processJoinedColumns available nI rKI required (name :: rest)
              = processJoinedColumns available nI rKI required rest := by
            rw [processJoinedColumns, if_neg (by rw [hav]; exact Bool.false_ne_true),
              if_neg (by rw [hreq]; exact Bool.false_ne_true)]
          rw [heq]
          have hres := ih required
          refine ⟨hres.1, hres.2.1, hres.2.2.1, ?_⟩
          intro n hn hnav hnreq
          rcases List.mem_cons.mp hn with rfl | hn2
          · have : required.contains n = true := by
              exact List.elem_eq_true_of_mem hnreq
            rw [this] at hreq
            cases hreq
          · exact hres.2.2.2 n hn2 hnav hnreq

/-- Reference-count oracle fixture for the C10 witness. -/
def nIW : String → Nat := fun n => if n = "j1" then 2 else 0

/-- `JOIN ON`-only count oracle fixture for the C10 witness. -/
def rKIW : String → Nat := fun _ => 1

theorem processJoinedColumns_spec_witness :
    "s" ∈ (processJoinedColumns ["s"] nIW rKIW ["s", "j1", "x"] ["s", "j1", "j2"]).1 ∧
    "j1" ∉ (processJoinedColumns ["s"] nIW rKIW ["s", "j1", "x"] ["s", "j1", "j2"]).1 :=
  ⟨(processJoinedColumns_spec ["s"] nIW rKIW ["s", "j1", "j2"] ["s", "j1", "x"]).2.1
      "s" (by decide) (by decide),
   (processJoinedColumns_spec ["s"] nIW rKIW ["s", "j1", "j2"] ["s", "j1", "x"]).2.2.2
      "j1" (by decide) (by decide) (by decide)⟩

theorem removeUnneededLoop_keeps_arrayJoin (distinct : Bool) :
    ∀ (elements : List AST) (remaining : String → Nat),
      ∀ e ∈ elements, hasArrayJoin e = true →
        e ∈ removeUnneededLoop distinct elements remaining := by
  intro elements
  induction elements with
  | nil =>
      intro remaining e he
      cases he
  | cons x es ih =>
      intro remaining e he harr
      rcases List.mem_cons.mp he with rfl | he2
      · rw [removeUnneededLoop]
        by_cases hrem : remaining e.aliasOrColumnName ≠ 0
        · rw [if_pos hrem]
          exact List.mem_cons_self _ _
        · rw [if_neg hrem, if_pos (by rw [harr]; simp)]
          exact List.mem_cons_self _ _
      · rw [removeUnneededLoop]
        by_cases hrem : remaining x.aliasOrColumnName ≠ 0
        · rw [if_pos hrem]
          exact List.mem_cons_of_mem _ (ih _ e he2 harr)
        · rw [if_neg hrem]
          by_cases hkeep : distinct || hasArrayJoin x
          · rw [if_pos hkeep]
            exact List.mem_cons_of_mem _ (ih _ e he2 harr)
          · rw [if_neg hkeep]
            exact ih _ e he2 harr

theorem removeUnneededLoop_count (distinct : Bool) (nm : String) :
    ∀ (elements : List AST) (remaining : String → Nat),
      min (elements.countP fun e => decide (e.aliasOrColumnName = nm)) (remaining nm)
        ≤ (removeUnneededLoop distinct elements remaining).countP
            fun e => decide (e.aliasOrColumnName = nm) := by
  intro elements
  induction elements with
  | nil => intro remaining; simp [removeUnneededLoop]
  | cons x es ih =>
      intro remaining
      rw [removeUnneededLoop]
      by_cases hname : x.aliasOrColumnName = nm
      · rw [hname]
        by_cases hrem0 : remaining nm = 0
        · simp [hrem0]
        · rw [if_pos hrem0, List.countP_cons, List.countP_cons]
          have hih := ih fun s => if s = nm then remaining nm - 1 else remaining s
          simp only [if_pos rfl] at hih
          simp only [hname, decide_eq_true_eq]
          simp only [if_true] at hih ⊢
          omega
      · have hdx : (decide (x.aliasOrColumnName = nm)) = false := by
          simp [hname]
        by_cases hrem : remaining x.aliasOrColumnName ≠ 0
        · rw [if_pos hrem, List.countP_cons, List.countP_cons, hdx]
          have hih := ih fun s =>
            if s = x.aliasOrColumnName then remaining x.aliasOrColumnName - 1
            else remaining s
          have hupd : (if nm = x.aliasOrColumnName then remaining x.aliasOrColumnName - 1
              else remaining nm) = remaining nm :=
            if_neg fun hc => hname hc.symm
          simp only [hupd] at hih
          simp only [Bool.false_eq_true, if_false]
          omega
        · rw [if_neg hrem]
          by_cases hkeep : (distinct || hasArrayJoin x) = true
          · rw [if_pos hkeep, List.countP_cons, List.countP_cons, hdx]
            have hih := ih remaining
            simp only [Bool.false_eq_true, if_false]
            omega
          · rw [if_neg hkeep, List.countP_cons, hdx]
            have hih := ih remaining
            simp only [Bool.false_eq_true, if_false]
            omega

/-- C6: with a non-empty `required_result_columns`,
`removeUnneededColumnsFromSelectClause` keeps every element that
contains an `arrayJoin` call; with `remove_dups = false` it keeps each
name with multiplicity at least
`min(#selected occurrences, #required occurrences)`; with
`remove_dups = true` it keeps at least one element of every required
name that is selected. -/
theorem removeUnneededColumns_keeps (q : SelectData AST)
    (required : List String) (remove_dups : Bool) (hne : required ≠ []) :
    (∀ e ∈ q.selectList, hasArrayJoin e = true →
      e ∈ (removeUnneededColumnsFromSelectClause q required remove_dups).selectList) ∧
    (remove_dups = false → ∀ n : String,
      min (q.selectList.countP fun e => decide (e.aliasOrColumnName = n))
          (required.count n)
        ≤ ((removeUnneededColumnsFromSelectClause q required remove_dups).selectList.countP
            fun e => decide (e.aliasOrColumnName = n))) ∧
    (remove_dups = true → ∀ n : String, required.contains n = true →
      (∃ e ∈ q.selectList, e.aliasOrColumnName = n) →
      ∃ e ∈ (removeUnneededColumnsFromSelectClause q required remove_dups).selectList,
        e.aliasOrColumnName = n) := by
  have hsel : (removeUnneededColumnsFromSelectClause q required remove_dups).selectList
      = removeUnneededLoop q.distinct q.selectList
          (initialRequiredCount required remove_dups) := by
    rw [removeUnneededColumnsFromSelectClause, if_pos hne]
  refine ⟨?_, ?_, ?_⟩
  · intro e he harr
    rw [hsel]
    exact removeUnneededLoop_keeps_arrayJoin q.distinct q.selectList _ e he harr
  · intro hrd n
    rw [hsel]
    have h := removeUnneededLoop_count q.distinct n q.selectList
      (initialRequiredCount required remove_dups)
    have hinit : initialRequiredCount required remove_dups n = required.count n := by
      simp [initialRequiredCount, hrd]
    rw [hinit] at h
    exact h
  · intro hrd n hcont hex
    obtain ⟨e, he, hname⟩ := hex
    rw [hsel]
    have h := removeUnneededLoop_count q.distinct n q.selectList
      (initialRequiredCount required remove_dups)
    have hinit : initialRequiredCount required remove_dups n = 1 := by
      simp [initialRequiredCount, hrd, hcont]
      exact List.mem_of_elem_eq_true hcont
    rw [hinit] at h
    have hcnt : 0 < q.selectList.countP fun e2 => decide (e2.aliasOrColumnName = n) := by
      rw [List.countP_pos]
      exact ⟨e, he, by simpa using hname⟩
    have hpos : 0 < (removeUnneededLoop q.distinct q.selectList
        (initialRequiredCount required remove_dups)).countP
          fun e2 => decide (e2.aliasOrColumnName = n) := by omega
    rw [List.countP_pos] at hpos
    obtain ⟨e2, he2, hp⟩ := hpos
    exact ⟨e2, he2, by simpa using hp⟩

/-- Select fixture for the C6 witness: `SELECT a, arrayJoin(z)`. -/
def qC6 : SelectData AST :=
  { emptySelect with selectList :=
      [AST.ident "a" none, AST.func "arrayJoin" none [AST.ident "z" none]] }

theorem removeUnneededColumns_keeps_witness :
    AST.func "arrayJoin" none [AST.ident "z" none]
      ∈ (removeUnneededColumnsFromSelectClause qC6 ["a"] false).selectList ∧
    min (qC6.selectList.countP fun e => decide (e.aliasOrColumnName = "a"))
        ((["a"] : List String).count "a")
      ≤ ((removeUnneededColumnsFromSelectClause qC6 ["a"] false).selectList.countP
          fun e => decide (e.aliasOrColumnName = "a")) :=
  ⟨(removeUnneededColumns_keeps qC6 ["a"] false (by decide)).1
      (AST.func "arrayJoin" none [AST.ident "z" none])
      (List.mem_cons_of_mem _ (List.mem_cons_self _ _))
      (by rw [hasArrayJoin]; simp),
   (removeUnneededColumns_keeps qC6 ["a"] false (by decide)).2.1 rfl "a"⟩

/-- C9: the `hasArrayJoin` test does not descend into select queries: an
element whose only `arrayJoin` call sits inside a subquery child tests
negative, and for a non-`DISTINCT` query whose required list does not
mention the element's name, `removeUnneededColumnsFromSelectClause`
drops the element. -/
theorem hasArrayJoin_skips_select_subquery (f : String) (al : Option String)
    (inner : SelectData AST) (q : SelectData AST) (required : List String)
    (rd : Bool) (hf : f ≠ "arrayJoin") (hne : required ≠ [])
    (hreq : required.contains
      ((AST.func f al [AST.subquery (AST.selectq inner)]).aliasOrColumnName) = false)
    (hdist : q.distinct = false)
    (hsel : q.selectList = [AST.func f al [AST.subquery (AST.selectq inner)]]) :
    hasArrayJoin (AST.func f al [AST.subquery (AST.selectq inner)]) = false ∧
    (removeUnneededColumnsFromSelectClause q required rd).selectList = [] := by
  have h1 : hasArrayJoin (AST.subquery (AST.selectq inner)) = false := by
    rw [hasArrayJoin]
    simp [AST.childrenList, AST.isSelect]
    intro n al2 args h
    cases h
  have h2 : hasArrayJoin (AST.func f al [AST.subquery (AST.selectq inner)]) = false := by
    rw [hasArrayJoin]
    simp [AST.childrenList, AST.isSelect, h1, hf]
  refine ⟨h2, ?_⟩
  have hcnt : initialRequiredCount required rd
      ((AST.func f al [AST.subquery (AST.selectq inner)]).aliasOrColumnName) = 0 := by
    rw [initialRequiredCount]
    cases rd with
    | true =>
        have hnm : (AST.func f al
            [AST.subquery (AST.selectq inner)]).aliasOrColumnName ∉ required := by
          simpa using hreq
        simp [hnm]
    | false =>
        simp only [if_false, Bool.false_eq_true]
        rw [List.count_eq_zero]
        simpa using hreq
  rw [removeUnneededColumnsFromSelectClause, if_pos hne]
  simp only [hsel]
  rw [removeUnneededLoop]
  rw [if_neg (by rw [hcnt]; simp)]
  rw [if_neg (by rw [hdist, h2]; simp)]
  rfl

/-- Inner subquery fixture for the C9 witness: the `arrayJoin` call sits
inside the subquery's select list. -/
def innerC9 : SelectData AST :=
  { emptySelect with selectList := [AST.func "arrayJoin" none [AST.ident "z" none]] }

/-- Outer select fixture for the C9 witness. -/
def qC9 : SelectData AST :=
  { emptySelect with selectList :=
      [AST.func "length" (some "e") [AST.subquery (AST.selectq innerC9)]] }

theorem hasArrayJoin_skips_select_subquery_witness :
    hasArrayJoin (AST.func "length" (some "e")
      [AST.subquery (AST.selectq innerC9)]) = false ∧
    (removeUnneededColumnsFromSelectClause qC9 ["x"] false).selectList = [] :=
  hasArrayJoin_skips_select_subquery "length" (some "e") innerC9 qC9 ["x"] false
    (by decide) (by decide) (by decide) rfl rfl

theorem checkNestedAggregates_cases (ctx : Ctx) :
    ∀ l : List AST,
      (checkNestedAggregates ctx l = .ok () ∨
        checkNestedAggregates ctx l = .error .illegalAggregation) ∧
      (checkNestedAggregates ctx l = .error .illegalAggregation ↔
        ∃ a ∈ l, ∃ nm al args, a = AST.func nm al args ∧
          args.any (hasAggregateCall ctx) = true) := by
  intro l
  induction l with
  | nil =>
      refine ⟨Or.inl rfl, ?_⟩
      constructor
      · intro h
        cases h
      · rintro ⟨a, ha, _⟩
        cases ha
  | cons a rest ih =>
      match ha : a with
      | AST.func nm al args =>
          by_cases hany : args.any (hasAggregateCall ctx) = true
          · have heq : checkNestedAggregates ctx (AST.func nm al args :: rest)
                = .error .illegalAggregation := by
              rw [checkNestedAggregates, if_pos hany]
            rw [heq]
            refine ⟨Or.inr rfl, ?_⟩
            constructor
            · intro _
              exact ⟨AST.func nm al args, List.mem_cons_self _ _, nm, al, args,
                rfl, hany⟩
            · intro _
              rfl
          · have heq : checkNestedAggregates ctx (AST.func nm al args :: rest)
                = checkNestedAggregates ctx rest := by
              rw [checkNestedAggregates, if_neg hany]
            rw [heq]
            refine ⟨ih.1, ?_⟩
            rw [ih.2]
            constructor
            · rintro ⟨b, hb, rest2⟩
              exact ⟨b, List.mem_cons_of_mem _ hb, rest2⟩
            · rintro ⟨b, hb, nm2, al2, args2, hbeq, hany2⟩
              rcases List.mem_cons.mp hb with rfl | hb2
              · obtain ⟨rfl, rfl, rfl⟩ :
                    nm = nm2 ∧ al = al2 ∧ args = args2 := by
                  injection hbeq with h1 h2 h3
                  exact ⟨h1, h2, h3⟩
                exact absurd hany2 hany
              · exact ⟨b, hb2, nm2, al2, args2, hbeq, hany2⟩
      | AST.ident n al2 | AST.lit v al2 | AST.asterisk | AST.qasterisk p
      | AST.orderElem e c | AST.subquery s | AST.tableExpr x y z
      | AST.selectq qq =>
          have heq : checkNestedAggregates ctx (a :: rest)
              = checkNestedAggregates ctx rest := by
            rw [ha, checkNestedAggregates]
            all_goals intro name al3 args h
            all_goals cases h
          rw [ha] at heq
          rw [heq]
          refine ⟨ih.1, ?_⟩
          rw [ih.2]
          constructor
          · rintro ⟨b, hb, rest2⟩
            exact ⟨b, List.mem_cons_of_mem _ hb, rest2⟩
          · rintro ⟨b, hb, nm2, al2b, args2, hbeq, hany2⟩
            rcases List.mem_cons.mp hb with rfl | hb2
            · cases hbeq
            · exact ⟨b, hb2, nm2, al2b, args2, hbeq, hany2⟩

theorem assertOption_cases (ctx : Ctx) (o : Option AST) :
    (assertOptionNoAggregates ctx o = Except.ok () ∨
     assertOptionNoAggregates ctx o = Except.error Err.illegalAggregation) ∧
    (assertOptionNoAggregates ctx o = Except.error Err.illegalAggregation ↔
      ∃ w, o = some w ∧ hasAggregateCall ctx w = true) := by
  cases o with
  | none =>
      refine ⟨Or.inl rfl, ?_, ?_⟩
      · intro h
        cases h
      · rintro ⟨w, hw, _⟩
        cases hw
  | some w =>
      rw [assertOptionNoAggregates]
      by_cases h : hasAggregateCall ctx w = true
      · rw [assertNoAggregates, if_pos h]
        exact ⟨Or.inr rfl, fun _ => ⟨w, rfl, h⟩, fun _ => rfl⟩
      · rw [assertNoAggregates, if_neg h]
        refine ⟨Or.inl rfl, ?_, ?_⟩
        · intro hcon
          cases hcon
        · rintro ⟨w2, hw2, hagg⟩
          injection hw2 with hw3
          subst hw3
          exact absurd hagg h

/-- C7: `getAggregates` fails with `ILLEGAL_AGGREGATION` exactly when an
aggregate call occurs somewhere under `WHERE` or under `PREWHERE`, or
some collected aggregate has an aggregate call inside one of its
argument subtrees; otherwise it returns the list of all
aggregate-function nodes found in the query. -/
theorem getAggregates_spec (ctx : Ctx) (query : AST) (q : SelectData AST) :
    (getAggregates ctx query q = .error .illegalAggregation ↔
      ((∃ w, q.whereC = some w ∧ hasAggregateCall ctx w = true) ∨
       (∃ w, q.prewhereC = some w ∧ hasAggregateCall ctx w = true) ∨
       (∃ a ∈ collectAggregates ctx query, ∃ nm al args,
         a = AST.func nm al args ∧ args.any (hasAggregateCall ctx) = true))) ∧
    (getAggregates ctx query q = .error .illegalAggregation ∨
      getAggregates ctx query q = .ok (collectAggregates ctx query)) := by
  have hW := assertOption_cases ctx q.whereC
  have hP := assertOption_cases ctx q.prewhereC
  have hC := checkNestedAggregates_cases ctx (collectAggregates ctx query)
  simp only [getAggregates]
  rcases hW.1 with h1 | h1
  · rcases hP.1 with h2 | h2
    · rcases hC.1 with h3 | h3
      · rw [h1, h2, h3]
        simp only [exceptBind_ok]
        refine ⟨?_, Or.inr trivial⟩
        constructor
        · intro hcon
          cases hcon
        · rintro (⟨w, hw, hagg⟩ | ⟨w, hw, hagg⟩ | hx)
          · have := hW.2.mpr ⟨w, hw, hagg⟩
            rw [h1] at this
            cases this
          · have := hP.2.mpr ⟨w, hw, hagg⟩
            rw [h2] at this
            cases this
          · have := hC.2.mpr hx
            rw [h3] at this
            cases this
      · rw [h1, h2, h3]
        simp only [exceptBind_ok, exceptBind_error]
        refine ⟨⟨fun _ => Or.inr (Or.inr (hC.2.mp h3)), fun _ => trivial⟩,
          Or.inl trivial⟩
    · rw [h1, h2]
      simp only [exceptBind_ok, exceptBind_error]
      refine ⟨⟨fun _ => Or.inr (Or.inl (hP.2.mp h2)), fun _ => trivial⟩,
        Or.inl trivial⟩
  · rw [h1]
    simp only [exceptBind_error]
    refine ⟨⟨fun _ => Or.inl (hW.2.mp h1), fun _ => trivial⟩, Or.inl trivial⟩

/-- Select fixture for the C7 witness: `SELECT x FROM t WHERE count()`. -/
def qC7 : SelectData AST :=
  { emptySelect with
    selectList := [AST.ident "x" none],
    whereC := some (AST.func "count" none []) }

theorem getAggregates_spec_witness :
    getAggregates ctx0 (AST.selectq qC7) qC7 = .error .illegalAggregation :=
  (getAggregates_spec ctx0 (AST.selectq qC7) qC7).1.mpr
    (Or.inl ⟨AST.func "count" none [], rfl,
      by rw [hasAggregateCall]; simp [ctx0, AST.childrenList]⟩)

/-- Inner subquery of the C1 scenario: `SELECT x FROM t ORDER BY x`. -/
def innerC1 : SelectData AST :=
  { emptySelect with
    selectList := [AST.ident "x" none],
    tables := [AST.tableExpr (some (AST.ident "t" none)) none none],
    orderBy := some [AST.orderElem (AST.ident "x" none) none] }

/-- The C1 scenario input: `SELECT x FROM (SELECT x FROM t ORDER BY x)`
— the outer query has neither `ORDER BY` nor `GROUP BY`. -/
def astC1 : AST :=
  AST.selectq
    { emptySelect with
      selectList := [AST.ident "x" none],
      tables := [AST.tableExpr none none
        (some (AST.subquery (AST.selectq innerC1)))] }

/-- C1 (counterexample): on `SELECT x FROM (SELECT x FROM t ORDER BY x)`
the pass leaves the AST unchanged — the subquery `ORDER BY` (shown
present) is NOT dropped, because the outer select has neither `ORDER BY`
nor `GROUP BY` and therefore never calls
`optimizeDuplicateOrderByFromSubqueries`. -/
theorem optimizeDuplicateOrderBy_keeps_inner_counterexample :
    optimizeDuplicateOrderBy ctx0 astC1 = astC1 ∧
    innerC1.orderBy = some [AST.orderElem (AST.ident "x" none) none] := by
  constructor
  · simp [astC1, innerC1, emptySelect, optimizeDuplicateOrderBy, ctx0,
      isASTFunctionStateful, AST.isFunc, dropSubqueryOrderBys,
      optimizeDuplicateOrderByFromSubqueries]
  · rfl

/-- The amended C1 input:
`SELECT x FROM (SELECT x FROM t ORDER BY x) ORDER BY x` — the outer
query now has its own `ORDER BY`. -/
def astC1amended : AST :=
  AST.selectq
    { emptySelect with
      selectList := [AST.ident "x" none],
      tables := [AST.tableExpr none none
        (some (AST.subquery (AST.selectq innerC1)))],
      orderBy := some [AST.orderElem (AST.ident "x" none) none] }

/-- C1 (amended): the duplicate-ORDER-BY pass drops a subquery
`ORDER BY` only when the outer select itself has `ORDER BY` or
`GROUP BY`.  On the amended input the inner `ORDER BY` is dropped and
every outer clause (including the outer `ORDER BY`) is unchanged. -/
theorem optimizeDuplicateOrderBy_amended_drop :
    optimizeDuplicateOrderBy ctx0 astC1amended =
      AST.selectq
        { emptySelect with
          selectList := [AST.ident "x" none],
          tables := [AST.tableExpr none none
            (some (AST.subquery (AST.selectq { innerC1 with orderBy := none })))],
          orderBy := some [AST.orderElem (AST.ident "x" none) none] } := by
  simp [astC1amended, innerC1, emptySelect, optimizeDuplicateOrderBy, ctx0,
    isASTFunctionStateful, AST.isFunc, dropSubqueryOrderBys,
    optimizeDuplicateOrderByFromSubqueries]

theorem optimizeOrderByLoop_stable :
    ∀ (elems : List AST) (seen : List (String × String)) (u : List AST),
      optimizeOrderByLoop seen elems = .ok u →
      optimizeOrderByLoop seen u = .ok u := by
  intro elems
  induction elems with
  | nil =>
      intro seen u h
      rw [optimizeOrderByLoop] at h
      injection h with h2
      subst h2
      rfl
  | cons e es ih =>
      intro seen u h
      rw [optimizeOrderByLoop] at h
      match hk : orderByKey e with
      | .error er =>
          rw [hk] at h
          simp only [exceptBind_error] at h
          cases h
      | .ok key =>
          rw [hk] at h
          simp only [exceptBind_ok] at h
          by_cases hcont : seen.contains key = true
          · rw [if_pos hcont] at h
            exact ih seen u h
          · rw [if_neg hcont] at h
            match hrest : optimizeOrderByLoop (key :: seen) es with
            | .error er =>
                rw [hrest] at h
                simp only [exceptBind_error] at h
                cases h
            | .ok rest =>
                rw [hrest] at h
                simp only [exceptBind_ok, Except.ok.injEq] at h
                subst h
                rw [optimizeOrderByLoop, hk]
                simp only [exceptBind_ok]
                rw [if_neg hcont, ih (key :: seen) rest hrest]
                rfl

theorem optimizeLimitByLoop_stable :
    ∀ (elems : List AST) (seen : List String),
      optimizeLimitByLoop seen (optimizeLimitByLoop seen elems)
        = optimizeLimitByLoop seen elems := by
  intro elems
  induction elems with
  | nil => intro seen; rfl
  | cons e es ih =>
      intro seen
      rw [optimizeLimitByLoop]
      by_cases hcont : seen.contains e.columnName = true
      · rw [if_pos hcont]
        exact ih seen
      · rw [if_neg hcont]
        rw [optimizeLimitByLoop, if_neg hcont, ih (e.columnName :: seen)]

theorem optimizeUsingLoop_stable :
    ∀ (elems : List AST) (seen : List String),
      optimizeUsingLoop seen (optimizeUsingLoop seen elems)
        = optimizeUsingLoop seen elems := by
  intro elems
  induction elems with
  | nil => intro seen; rfl
  | cons e es ih =>
      intro seen
      rw [optimizeUsingLoop]
      by_cases hcont : seen.contains e.aliasOrColumnName = true
      · rw [if_pos hcont]
        exact ih seen
      · rw [if_neg hcont]
        rw [optimizeUsingLoop, if_neg hcont, ih (e.aliasOrColumnName :: seen)]

theorem optimizeOrderBy_none (q : SelectData AST) (hob : q.orderBy = none) :
    optimizeOrderBy q = .ok q := by
  rw [optimizeOrderBy, hob]

theorem optimizeOrderBy_some (q : SelectData AST) (elems : List AST)
    (hob : q.orderBy = some elems) :
    optimizeOrderBy q = (do
      let unique ← optimizeOrderByLoop [] elems
      if unique.length < elems.length then
        Except.ok { q with orderBy := some unique }
      else Except.ok q) := by
  rw [optimizeOrderBy, hob]

theorem optimizeOrderBy_idem (q q2 : SelectData AST)
    (h : optimizeOrderBy q = .ok q2) : optimizeOrderBy q2 = .ok q2 := by
  match hob : q.orderBy with
  | none =>
      rw [optimizeOrderBy_none q hob] at h
      injection h with h2
      subst h2
      exact optimizeOrderBy_none q hob
  | some elems =>
      rw [optimizeOrderBy_some q elems hob] at h
      match hloop : optimizeOrderByLoop [] elems with
      | .error er =>
          rw [hloop] at h
          simp only [exceptBind_error] at h
          cases h
      | .ok u =>
          rw [hloop] at h
          simp only [exceptBind_ok] at h
          have hstable := optimizeOrderByLoop_stable elems [] u hloop
          by_cases hlen : u.length < elems.length
          · rw [if_pos hlen, Except.ok.injEq] at h
            subst h
            rw [optimizeOrderBy_some { q with orderBy := some u } u rfl, hstable]
            simp only [exceptBind_ok]
            rw [if_neg (by omega)]
          · rw [if_neg hlen, Except.ok.injEq] at h
            subst h
            rw [optimizeOrderBy_some q elems hob, hloop]
            simp only [exceptBind_ok]
            rw [if_neg hlen]

theorem optimizeLimitBy_none (q : SelectData AST) (hlb : q.limitBy = none) :
    optimizeLimitBy q = q := by
  rw [optimizeLimitBy, hlb]

theorem optimizeLimitBy_some (q : SelectData AST) (elems : List AST)
    (hlb : q.limitBy = some elems) :
    optimizeLimitBy q =
      (if (optimizeLimitByLoop [] elems).length < elems.length then
        { q with limitBy := some (optimizeLimitByLoop [] elems) }
      else q) := by
  rw [optimizeLimitBy, hlb]

theorem optimizeLimitBy_idem (q : SelectData AST) :
    optimizeLimitBy (optimizeLimitBy q) = optimizeLimitBy q := by
  match hlb : q.limitBy with
  | none => rw [optimizeLimitBy_none q hlb, optimizeLimitBy_none q hlb]
  | some elems =>
      rw [optimizeLimitBy_some q elems hlb]
      by_cases hlen : (optimizeLimitByLoop [] elems).length < elems.length
      · rw [if_pos hlen]
        rw [optimizeLimitBy_some { q with limitBy := some (optimizeLimitByLoop [] elems) }
          (optimizeLimitByLoop [] elems) rfl]
        rw [optimizeLimitByLoop_stable]
        rw [if_neg (by omega)]
      · rw [if_neg hlen, optimizeLimitBy_some q elems hlb, if_neg hlen]

theorem optimizeUsing_none (q : SelectData AST)
    (h : q.join = none ∨ ∃ j, q.join = some j ∧ j.usingList = none) :
    optimizeUsing q = q := by
  rcases h with hj | ⟨j, hj, hul⟩
  · rw [optimizeUsing, hj]
  · simp only [optimizeUsing, hj, hul]

theorem optimizeUsing_some (q : SelectData AST) (j : JoinInfo AST)
    (ul : List AST) (hj : q.join = some j) (hul : j.usingList = some ul) :
    optimizeUsing q =
      (if (optimizeUsingLoop [] ul).length < ul.length then
        { q with join := some { j with usingList := some (optimizeUsingLoop [] ul) } }
      else q) := by
  simp only [optimizeUsing, hj, hul]

theorem optimizeUsing_idem (q : SelectData AST) :
    optimizeUsing (optimizeUsing q) = optimizeUsing q := by
  match hj : q.join with
  | none =>
      rw [optimizeUsing_none q (Or.inl hj), optimizeUsing_none q (Or.inl hj)]
  | some j =>
      match hul : j.usingList with
      | none =>
          rw [optimizeUsing_none q (Or.inr ⟨j, hj, hul⟩),
            optimizeUsing_none q (Or.inr ⟨j, hj, hul⟩)]
      | some ul =>
          rw [optimizeUsing_some q j ul hj hul]
          by_cases hlen : (optimizeUsingLoop [] ul).length < ul.length
          · rw [if_pos hlen]
            rw [optimizeUsing_some
              { q with join := some { j with usingList := some (optimizeUsingLoop [] ul) } }
              { j with usingList := some (optimizeUsingLoop [] ul) }
              (optimizeUsingLoop [] ul) rfl rfl]
            rw [optimizeUsingLoop_stable]
            rw [if_neg (by omega)]
          · rw [if_neg hlen, optimizeUsing_some q j ul hj hul, if_neg hlen]

theorem gbLoop_all_keep (ctx : Ctx) (settled pending : List AST) :
    ∀ res, gbLoop ctx settled pending = .ok res →
      (∀ x ∈ settled, classifyGroupByElem ctx x = .keep) →
      ∀ x ∈ res, classifyGroupByElem ctx x = .keep := by
  induction settled, pending using gbLoop.induct ctx with
  | case1 settled =>
      intro res h hs
      rw [gbLoop] at h
      injection h with h2
      subst h2
      exact hs
  | case2 settled x rs hcl =>
      intro res h hs
      simp only [gbLoop] at h
      split at h
      · cases h
      · rename_i heq; rw [hcl] at heq; cases heq
      · rename_i heq; rw [hcl] at heq; cases heq
      · rename_i args2 heq; rw [hcl] at heq; cases heq
  | case3 settled x rs hcl ih =>
      intro res h hs
      simp only [gbLoop] at h
      split at h
      · rename_i heq; rw [hcl] at heq; cases heq
      · refine ih res h ?_
        intro y hy
        rcases List.mem_append.mp hy with hy2 | hy2
        · exact hs y hy2
        · rw [List.mem_singleton.mp hy2]
          exact hcl
      · rename_i heq; rw [hcl] at heq; cases heq
      · rename_i args2 heq; rw [hcl] at heq; cases heq
  | case4 settled x rs hcl ih =>
      intro res h hs
      simp only [gbLoop] at h
      split at h
      · rename_i heq; rw [hcl] at heq; cases heq
      · rename_i heq; rw [hcl] at heq; cases heq
      · exact ih res h hs
      · rename_i args2 heq; rw [hcl] at heq; cases heq
  | case5 settled x rs args hcl ih =>
      intro res h hs
      simp only [gbLoop] at h
      split at h
      · rename_i heq; rw [hcl] at heq; cases heq
      · rename_i heq; rw [hcl] at heq; cases heq
      · rename_i heq; rw [hcl] at heq; cases heq
      · rename_i args2 heq
        rw [hcl] at heq
        cases heq
        exact ih res h hs

theorem gbLoop_keep_passthrough (ctx : Ctx) (pending : List AST)
    (hp : ∀ x ∈ pending, classifyGroupByElem ctx x = .keep) :
    ∀ settled, gbLoop ctx settled pending = .ok (settled ++ pending) := by
  induction pending with
  | nil => intro settled; rw [gbLoop]; simp
  | cons x rs ih =>
      intro settled
      have hx : classifyGroupByElem ctx x = .keep := hp x (List.mem_cons_self x rs)
      simp only [gbLoop]
      split
      · rename_i heq; rw [hx] at heq; cases heq
      · have := ih (fun y hy => hp y (List.mem_cons_of_mem x hy)) (settled ++ [x])
        rw [this]
        simp
      · rename_i heq; rw [hx] at heq; cases heq
      · rename_i args2 heq; rw [hx] at heq; cases heq

theorem gbLoop_single_literal (ctx : Ctx) (v : Val) (al : Option String) :
    gbLoop ctx [] [AST.lit v al] = .ok [] := by
  simp [gbLoop, classifyGroupByElem, swapHead]

theorem optimizeGroupBy_appendUnused (q : SelectData AST) (cols : List String)
    (ctx : Ctx) :
    optimizeGroupBy (appendUnusedGroupByColumn q cols) cols ctx
      = .ok (appendUnusedGroupByColumn q cols) := by
  simp only [optimizeGroupBy, appendUnusedGroupByColumn, gbLoop_single_literal,
    List.isEmpty_nil, if_true]

theorem optimizeGroupBy_idem (q q2 : SelectData AST) (cols : List String) (ctx : Ctx)
    (h : optimizeGroupBy q cols ctx = .ok q2) :
    optimizeGroupBy q2 cols ctx = .ok q2 := by
  match hgb : q.groupBy with
  | none =>
      simp only [optimizeGroupBy, hgb] at h
      by_cases hh : q.having.isSome
      · rw [if_pos hh, Except.ok.injEq] at h
        subst h
        exact optimizeGroupBy_appendUnused q cols ctx
      · rw [if_neg hh, Except.ok.injEq] at h
        subst h
        simp only [optimizeGroupBy, hgb]
        rw [if_neg hh]
  | some ges =>
      simp only [optimizeGroupBy, hgb] at h
      split at h
      · cases h
      · rename_i res heq
        by_cases hres : res.isEmpty
        · rw [if_pos hres, Except.ok.injEq] at h
          subst h
          exact optimizeGroupBy_appendUnused q cols ctx
        · rw [if_neg hres, Except.ok.injEq] at h
          subst h
          have hkeep := gbLoop_all_keep ctx [] ges res heq (by simp)
          have hrun : gbLoop ctx [] res = .ok res := by
            have := gbLoop_keep_passthrough ctx res hkeep []
            simpa using this
          simp only [optimizeGroupBy, hrun]
          rw [if_neg hres]
theorem joinDefaultStep_ok_inv (j j1 : JoinInfo AST) (jds : JoinDefault)
    (h : joinDefaultStep j jds = .ok j1) :
    ¬(j1.strictness = JoinStrictness.unspecified ∧ j1.kind ≠ JoinKind.cross) := by
  simp only [joinDefaultStep] at h
  split at h
  · split at h
    · injection h with h2; subst h2; simp
    · injection h with h2; subst h2; simp
    · cases h
  · rename_i hc
    injection h with h2
    subst h2
    exact hc

theorem joinDefaultStep_stable (j : JoinInfo AST) (jds : JoinDefault)
    (hD : ¬(j.strictness = JoinStrictness.unspecified ∧ j.kind ≠ JoinKind.cross)) :
    joinDefaultStep j jds = .ok j := by
  simp only [joinDefaultStep, if_neg hD]

theorem joinOldAnyStep_D_inv (j j2 : JoinInfo AST) (oa : Bool)
    (hD : ¬(j.strictness = JoinStrictness.unspecified ∧ j.kind ≠ JoinKind.cross))
    (h : joinOldAnyStep j oa = .ok j2) :
    ¬(j2.strictness = JoinStrictness.unspecified ∧ j2.kind ≠ JoinKind.cross) := by
  simp only [joinOldAnyStep] at h
  split at h
  · by_cases hc1 : j.strictness = JoinStrictness.any ∧ j.kind = JoinKind.inner
    · rw [if_pos hc1] at h
      have hsemi : (JoinInfo.mk JoinKind.left JoinStrictness.semi j.usingList
          j.onExpr).strictness ≠ JoinStrictness.any := by simp
      rw [if_neg hsemi] at h
      injection h with h2; subst h2; simp
    · rw [if_neg hc1] at h
      by_cases hc2 : j.strictness = JoinStrictness.any
      · rw [if_pos hc2] at h; injection h with h2; subst h2; simp
      · rw [if_neg hc2] at h; injection h with h2; subst h2; exact hD
  · split at h
    · cases h
    · injection h with h2; subst h2; exact hD

theorem joinOldAnyStep_idem (j j2 : JoinInfo AST) (oa : Bool)
    (h : joinOldAnyStep j oa = .ok j2) : joinOldAnyStep j2 oa = .ok j2 := by
  simp only [joinOldAnyStep] at h
  split at h
  · rename_i hoa
    have hstr : j2.strictness ≠ JoinStrictness.any := by
      by_cases hc1 : j.strictness = JoinStrictness.any ∧ j.kind = JoinKind.inner
      · rw [if_pos hc1] at h
        have hsemi : (JoinInfo.mk JoinKind.left JoinStrictness.semi j.usingList
            j.onExpr).strictness ≠ JoinStrictness.any := by simp
        rw [if_neg hsemi] at h
        injection h with h2; subst h2; simp
      · rw [if_neg hc1] at h
        by_cases hc2 : j.strictness = JoinStrictness.any
        · rw [if_pos hc2] at h; injection h with h2; subst h2; simp
        · rw [if_neg hc2] at h; injection h with h2; subst h2; exact hc2
    simp only [joinOldAnyStep, if_pos hoa]
    have hc1a : ¬(j2.strictness = JoinStrictness.any ∧ j2.kind = JoinKind.inner) :=
      fun hc => hstr hc.1
    rw [if_neg hc1a, if_neg hstr]
  · rename_i hoa
    split at h
    · cases h
    · rename_i hc
      injection h with h2
      subst h2
      simp only [joinOldAnyStep, if_neg hoa, if_neg hc]

theorem setJoinStrictness_idem (q q2 : SelectData AST) (jds : JoinDefault) (oa : Bool)
    (h : setJoinStrictness q jds oa = .ok q2) :
    setJoinStrictness q2 jds oa = .ok q2 := by
  match hj : q.join with
  | none =>
      simp only [setJoinStrictness, hj] at h
      injection h with h2
      subst h2
      simp only [setJoinStrictness, hj]
  | some j0 =>
      simp only [setJoinStrictness, hj] at h
      match h1 : joinDefaultStep j0 jds with
      | .error e => rw [h1] at h; simp only [exceptBind_error] at h; cases h
      | .ok j1 =>
          rw [h1] at h
          simp only [exceptBind_ok] at h
          match h2 : joinOldAnyStep j1 oa with
          | .error e => rw [h2] at h; simp only [exceptBind_error] at h; cases h
          | .ok j2a =>
              rw [h2] at h
              simp only [exceptBind_ok, Except.ok.injEq] at h
              subst h
              have hD1 := joinDefaultStep_ok_inv j0 j1 jds h1
              have hD2 := joinOldAnyStep_D_inv j1 j2a oa hD1 h2
              have hs1 : joinDefaultStep j2a jds = .ok j2a :=
                joinDefaultStep_stable j2a jds hD2
              have hs2 : joinOldAnyStep j2a oa = .ok j2a :=
                joinOldAnyStep_idem j1 j2a oa h2
              simp only [setJoinStrictness, hs1, exceptBind_ok, hs2]
theorem fs_func (n : String) (a : Option String) (args : List AST) :
    optimizeDuplicateOrderByFromSubqueries (.func n a args)
      = .func n a (args.map optimizeDuplicateOrderByFromSubqueries) := by
  simp only [optimizeDuplicateOrderByFromSubqueries, List.map_attach, List.pmap_eq_map]

theorem fs_orderElem (e : AST) (c : Option AST) :
    optimizeDuplicateOrderByFromSubqueries (.orderElem e c)
      = .orderElem (optimizeDuplicateOrderByFromSubqueries e)
          (c.map optimizeDuplicateOrderByFromSubqueries) := by
  cases c <;> simp [optimizeDuplicateOrderByFromSubqueries]

theorem fs_tableExpr (a b c : Option AST) :
    optimizeDuplicateOrderByFromSubqueries (.tableExpr a b c)
      = .tableExpr (a.map optimizeDuplicateOrderByFromSubqueries)
          (b.map optimizeDuplicateOrderByFromSubqueries)
          (c.map optimizeDuplicateOrderByFromSubqueries) := by
  cases a <;> cases b <;> cases c <;> simp [optimizeDuplicateOrderByFromSubqueries]

theorem fs_map_idem (l : List AST)
    (ih : ∀ c ∈ l, optimizeDuplicateOrderByFromSubqueries
        (optimizeDuplicateOrderByFromSubqueries c)
      = optimizeDuplicateOrderByFromSubqueries c) :
    (l.map optimizeDuplicateOrderByFromSubqueries).map
        optimizeDuplicateOrderByFromSubqueries
      = l.map optimizeDuplicateOrderByFromSubqueries := by
  rw [List.map_map]
  exact List.map_congr_left ih

theorem fs_opt_idem (o : Option AST)
    (ih : ∀ c ∈ o, optimizeDuplicateOrderByFromSubqueries
        (optimizeDuplicateOrderByFromSubqueries c)
      = optimizeDuplicateOrderByFromSubqueries c) :
    (o.map optimizeDuplicateOrderByFromSubqueries).map
        optimizeDuplicateOrderByFromSubqueries
      = o.map optimizeDuplicateOrderByFromSubqueries := by
  cases o with
  | none => rfl
  | some x =>
      show some (optimizeDuplicateOrderByFromSubqueries
        (optimizeDuplicateOrderByFromSubqueries x)) = some (optimizeDuplicateOrderByFromSubqueries x)
      rw [ih x rfl]

theorem optimizeDuplicateOrderByFromSubqueries_idem (t : AST) :
    optimizeDuplicateOrderByFromSubqueries (optimizeDuplicateOrderByFromSubqueries t)
      = optimizeDuplicateOrderByFromSubqueries t := by
  induction t using optimizeDuplicateOrderByFromSubqueries.induct with
  | case1 q hc =>
      simp only [optimizeDuplicateOrderByFromSubqueries, if_pos hc]
      simp
  | case2 q hc =>
      simp only [optimizeDuplicateOrderByFromSubqueries, if_neg hc]
  | case3 n a => simp only [optimizeDuplicateOrderByFromSubqueries]
  | case4 v a => simp only [optimizeDuplicateOrderByFromSubqueries]
  | case5 n a args ih =>
      rw [fs_func, fs_func, fs_map_idem args ih]
  | case6 => simp only [optimizeDuplicateOrderByFromSubqueries]
  | case7 p => simp only [optimizeDuplicateOrderByFromSubqueries]
  | case8 e c ihe ihc =>
      rw [fs_orderElem, fs_orderElem, ihe, fs_opt_idem c ihc]
  | case9 s ih =>
      simp only [optimizeDuplicateOrderByFromSubqueries]
      rw [ih]
  | case10 a b c iha ihb ihc =>
      rw [fs_tableExpr, fs_tableExpr, fs_opt_idem a iha, fs_opt_idem b ihb,
        fs_opt_idem c ihc]

/-- The join-element child mapping of `optimizeDuplicateOrderBy`. -/
def odbJoin (ctx : Ctx) (j : JoinInfo AST) : JoinInfo AST :=
  { kind := j.kind, strictness := j.strictness,
    usingList := j.usingList.map (List.map (optimizeDuplicateOrderBy ctx)),
    onExpr := j.onExpr.map (optimizeDuplicateOrderBy ctx) }

/-- The child mapping of `optimizeDuplicateOrderBy` on a select query. -/
def odbMapSelect (ctx : Ctx) (q : SelectData AST) : SelectData AST :=
  { distinct := q.distinct, hasSet := q.hasSet,
    selectList := q.selectList.map (optimizeDuplicateOrderBy ctx),
    tables := q.tables.map (optimizeDuplicateOrderBy ctx),
    prewhereC := q.prewhereC.map (optimizeDuplicateOrderBy ctx),
    whereC := q.whereC.map (optimizeDuplicateOrderBy ctx),
    groupBy := q.groupBy.map (List.map (optimizeDuplicateOrderBy ctx)),
    having := q.having.map (optimizeDuplicateOrderBy ctx),
    orderBy := q.orderBy.map (List.map (optimizeDuplicateOrderBy ctx)),
    limitBy := q.limitBy.map (List.map (optimizeDuplicateOrderBy ctx)),
    limitByOffset := q.limitByOffset.map (optimizeDuplicateOrderBy ctx),
    limitByLength := q.limitByLength.map (optimizeDuplicateOrderBy ctx),
    limitLength := q.limitLength.map (optimizeDuplicateOrderBy ctx),
    limitOffset := q.limitOffset.map (optimizeDuplicateOrderBy ctx),
    join := q.join.map (odbJoin ctx) }

theorem odb_select (ctx : Ctx) (q : SelectData AST) :
    optimizeDuplicateOrderBy ctx (.selectq q) =
      (if (odbMapSelect ctx q).hasSet then .selectq (odbMapSelect ctx q)
       else if ((odbMapSelect ctx q).orderBy.isSome
           || (odbMapSelect ctx q).groupBy.isSome) then
         if (odbMapSelect ctx q).selectList.any
             (fun e => e.isFunc && isASTFunctionStateful ctx e) then
           .selectq (odbMapSelect ctx q)
         else .selectq (dropSubqueryOrderBys (odbMapSelect ctx q))
       else .selectq (odbMapSelect ctx q)) := by
  obtain ⟨d, hs, sl, tb, pw, wh, gb, hv, ob, lb, lbo, lbl, ll, lo, jn⟩ := q
  simp only [optimizeDuplicateOrderBy, odbMapSelect, odbJoin, List.map_attach,
    List.pmap_eq_map, Option.map_attach, Option.pmap_eq_map]
  rfl

theorem odb_ident (ctx : Ctx) (n : String) (a : Option String) :
    optimizeDuplicateOrderBy ctx (.ident n a) = .ident n a := by
  simp only [optimizeDuplicateOrderBy]

theorem odb_lit (ctx : Ctx) (v : Val) (a : Option String) :
    optimizeDuplicateOrderBy ctx (.lit v a) = .lit v a := by
  simp only [optimizeDuplicateOrderBy]

theorem odb_asterisk (ctx : Ctx) :
    optimizeDuplicateOrderBy ctx .asterisk = .asterisk := by
  simp only [optimizeDuplicateOrderBy]

theorem odb_qasterisk (ctx : Ctx) (p : String) :
    optimizeDuplicateOrderBy ctx (.qasterisk p) = .qasterisk p := by
  simp only [optimizeDuplicateOrderBy]

theorem odb_func (ctx : Ctx) (n : String) (a : Option String) (args : List AST) :
    optimizeDuplicateOrderBy ctx (.func n a args)
      = .func n a (args.map (optimizeDuplicateOrderBy ctx)) := by
  simp only [optimizeDuplicateOrderBy, List.map_attach, List.pmap_eq_map]

theorem odb_orderElem (ctx : Ctx) (e : AST) (c : Option AST) :
    optimizeDuplicateOrderBy ctx (.orderElem e c)
      = .orderElem (optimizeDuplicateOrderBy ctx e)
          (c.map (optimizeDuplicateOrderBy ctx)) := by
  simp only [optimizeDuplicateOrderBy, Option.map_attach, Option.pmap_eq_map]

theorem odb_subquery (ctx : Ctx) (s : AST) :
    optimizeDuplicateOrderBy ctx (.subquery s)
      = .subquery (optimizeDuplicateOrderBy ctx s) := by
  simp only [optimizeDuplicateOrderBy]

theorem odb_tableExpr (ctx : Ctx) (a b c : Option AST) :
    optimizeDuplicateOrderBy ctx (.tableExpr a b c)
      = .tableExpr (a.map (optimizeDuplicateOrderBy ctx))
          (b.map (optimizeDuplicateOrderBy ctx))
          (c.map (optimizeDuplicateOrderBy ctx)) := by
  simp only [optimizeDuplicateOrderBy, Option.map_attach, Option.pmap_eq_map]

theorem fs_select (q : SelectData AST) :
    optimizeDuplicateOrderByFromSubqueries (.selectq q)
      = if (q.orderBy.isSome && q.limitBy.isNone && q.limitByOffset.isNone &&
            q.limitByLength.isNone && q.limitLength.isNone && q.limitOffset.isNone)
        then .selectq { q with orderBy := none } else .selectq q := by
  simp only [optimizeDuplicateOrderByFromSubqueries]

/-- The join-element child mapping of `dropSubqueryOrderBys`. -/
def fsJoin (j : JoinInfo AST) : JoinInfo AST :=
  { j with
    usingList := j.usingList.map (List.map optimizeDuplicateOrderByFromSubqueries),
    onExpr := j.onExpr.map optimizeDuplicateOrderByFromSubqueries }

theorem dropSubqueryOrderBys_eq (q : SelectData AST) :
    dropSubqueryOrderBys q
      = { q with
          tables := q.tables.map optimizeDuplicateOrderByFromSubqueries,
          join := q.join.map fsJoin } := rfl

theorem map_fix {α : Type} {f g : α → α} (l : List α)
    (h : ∀ c ∈ l, f (g c) = g c) : (l.map g).map f = l.map g := by
  rw [List.map_map]
  exact List.map_congr_left h

theorem omap_fix {α : Type} {f g : α → α} (o : Option α)
    (h : ∀ c ∈ o, f (g c) = g c) : (o.map g).map f = o.map g := by
  cases o with
  | none => rfl
  | some x =>
      show some (f (g x)) = some (g x)
      rw [h x rfl]

theorem olmap_fix {α : Type} {f g : α → α} (o : Option (List α))
    (h : ∀ l ∈ o, ∀ c ∈ l, f (g c) = g c) :
    (o.map (List.map g)).map (List.map f) = o.map (List.map g) := by
  cases o with
  | none => rfl
  | some l =>
      show some ((l.map g).map f) = some (l.map g)
      rw [map_fix l (h l rfl)]

theorem fsJoin_mk (k : JoinKind) (s : JoinStrictness) (ul : Option (List AST))
    (oe : Option AST) :
    fsJoin ⟨k, s, ul, oe⟩
      = ⟨k, s, ul.map (List.map optimizeDuplicateOrderByFromSubqueries),
          oe.map optimizeDuplicateOrderByFromSubqueries⟩ := rfl

theorem fsJoin_idem (j : JoinInfo AST) : fsJoin (fsJoin j) = fsJoin j := by
  obtain ⟨k, s, ul, oe⟩ := j
  show (⟨k, s,
      (ul.map (List.map optimizeDuplicateOrderByFromSubqueries)).map
        (List.map optimizeDuplicateOrderByFromSubqueries),
      (oe.map optimizeDuplicateOrderByFromSubqueries).map
        optimizeDuplicateOrderByFromSubqueries⟩ : JoinInfo AST)
    = ⟨k, s, ul.map (List.map optimizeDuplicateOrderByFromSubqueries),
        oe.map optimizeDuplicateOrderByFromSubqueries⟩
  rw [olmap_fix ul (fun l _ c _ => optimizeDuplicateOrderByFromSubqueries_idem c)]
  rw [omap_fix oe (fun c _ => optimizeDuplicateOrderByFromSubqueries_idem c)]

theorem dropSubqueryOrderBys_idem (q : SelectData AST) :
    dropSubqueryOrderBys (dropSubqueryOrderBys q) = dropSubqueryOrderBys q := by
  rw [dropSubqueryOrderBys_eq q]
  show ({ q with
      tables := (q.tables.map optimizeDuplicateOrderByFromSubqueries).map
        optimizeDuplicateOrderByFromSubqueries,
      join := (q.join.map fsJoin).map fsJoin } : SelectData AST)
    = { q with
        tables := q.tables.map optimizeDuplicateOrderByFromSubqueries,
        join := q.join.map fsJoin }
  rw [map_fix q.tables (fun c _ => optimizeDuplicateOrderByFromSubqueries_idem c)]
  rw [omap_fix q.join (fun j _ => fsJoin_idem j)]

theorem odbMapSelect_eq_self (ctx : Ctx) (q : SelectData AST)
    (h1 : q.selectList.map (optimizeDuplicateOrderBy ctx) = q.selectList)
    (h2 : q.tables.map (optimizeDuplicateOrderBy ctx) = q.tables)
    (h3 : q.prewhereC.map (optimizeDuplicateOrderBy ctx) = q.prewhereC)
    (h4 : q.whereC.map (optimizeDuplicateOrderBy ctx) = q.whereC)
    (h5 : q.groupBy.map (List.map (optimizeDuplicateOrderBy ctx)) = q.groupBy)
    (h6 : q.having.map (optimizeDuplicateOrderBy ctx) = q.having)
    (h7 : q.orderBy.map (List.map (optimizeDuplicateOrderBy ctx)) = q.orderBy)
    (h8 : q.limitBy.map (List.map (optimizeDuplicateOrderBy ctx)) = q.limitBy)
    (h9 : q.limitByOffset.map (optimizeDuplicateOrderBy ctx) = q.limitByOffset)
    (h10 : q.limitByLength.map (optimizeDuplicateOrderBy ctx) = q.limitByLength)
    (h11 : q.limitLength.map (optimizeDuplicateOrderBy ctx) = q.limitLength)
    (h12 : q.limitOffset.map (optimizeDuplicateOrderBy ctx) = q.limitOffset)
    (h13 : q.join.map (odbJoin ctx) = q.join) :
    odbMapSelect ctx q = q := by
  unfold odbMapSelect
  rw [h1, h2, h3, h4, h5, h6, h7, h8, h9, h10, h11, h12, h13]

theorem odb_fixedpoint_select (ctx : Ctx) (qr : SelectData AST)
    (hfix : odbMapSelect ctx qr = qr)
    (hdrop : ¬qr.hasSet = true → (qr.orderBy.isSome || qr.groupBy.isSome) = true →
      ¬(qr.selectList.any (fun e => e.isFunc && isASTFunctionStateful ctx e)) = true →
      dropSubqueryOrderBys qr = qr) :
    optimizeDuplicateOrderBy ctx (.selectq qr) = .selectq qr := by
  rw [odb_select, hfix]
  by_cases hset : qr.hasSet = true
  · rw [if_pos hset]
  · rw [if_neg hset]
    by_cases hcond : (qr.orderBy.isSome || qr.groupBy.isSome) = true
    · rw [if_pos hcond]
      by_cases hstf : (qr.selectList.any
          (fun e => e.isFunc && isASTFunctionStateful ctx e)) = true
      · rw [if_pos hstf]
      · rw [if_neg hstf, hdrop hset hcond hstf]
    · rw [if_neg hcond]

theorem odbMapSelect_orderBy_none (ctx : Ctx) (q : SelectData AST) :
    odbMapSelect ctx { q with orderBy := none }
      = { odbMapSelect ctx q with orderBy := none } := rfl

theorem dropSubqueryOrderBys_orderBy_none (q : SelectData AST) :
    dropSubqueryOrderBys { q with orderBy := none }
      = { dropSubqueryOrderBys q with orderBy := none } := rfl

theorem fs_subquery (s : AST) :
    optimizeDuplicateOrderByFromSubqueries (.subquery s)
      = .subquery (optimizeDuplicateOrderByFromSubqueries s) := by
  simp only [optimizeDuplicateOrderByFromSubqueries]

theorem map_fix2 {α : Type} {f g h : α → α} (l : List α)
    (hp : ∀ c ∈ l, f (g (h c)) = g (h c)) :
    ((l.map h).map g).map f = (l.map h).map g := by
  apply map_fix
  intro c hc
  rcases List.mem_map.mp hc with ⟨c0, hc0, rfl⟩
  exact hp c0 hc0

theorem omap_fix2 {α : Type} {f g h : α → α} (o : Option α)
    (hp : ∀ c ∈ o, f (g (h c)) = g (h c)) :
    ((o.map h).map g).map f = (o.map h).map g := by
  cases o with
  | none => rfl
  | some x =>
      show some (f (g (h x))) = some (g (h x))
      rw [hp x rfl]

theorem olmap_fix2 {α : Type} {f g h : α → α} (o : Option (List α))
    (hp : ∀ l ∈ o, ∀ c ∈ l, f (g (h c)) = g (h c)) :
    ((o.map (List.map h)).map (List.map g)).map (List.map f)
      = (o.map (List.map h)).map (List.map g) := by
  cases o with
  | none => rfl
  | some l =>
      show some (((l.map h).map g).map f) = some ((l.map h).map g)
      rw [map_fix2 l (hp l rfl)]

theorem odbJoin_fix (ctx : Ctx) (j : JoinInfo AST)
    (hul : ∀ l ∈ j.usingList, ∀ c ∈ l,
      optimizeDuplicateOrderBy ctx (optimizeDuplicateOrderBy ctx c)
        = optimizeDuplicateOrderBy ctx c)
    (hoe : ∀ c ∈ j.onExpr,
      optimizeDuplicateOrderBy ctx (optimizeDuplicateOrderBy ctx c)
        = optimizeDuplicateOrderBy ctx c) :
    odbJoin ctx (odbJoin ctx j) = odbJoin ctx j := by
  obtain ⟨k, s, ul, oe⟩ := j
  show (⟨k, s,
      (ul.map (List.map (optimizeDuplicateOrderBy ctx))).map
        (List.map (optimizeDuplicateOrderBy ctx)),
      (oe.map (optimizeDuplicateOrderBy ctx)).map (optimizeDuplicateOrderBy ctx)⟩
    : JoinInfo AST)
    = ⟨k, s, ul.map (List.map (optimizeDuplicateOrderBy ctx)),
        oe.map (optimizeDuplicateOrderBy ctx)⟩
  rw [olmap_fix ul hul, omap_fix oe hoe]

theorem odbJoin_fsJoin_fix (ctx : Ctx) (j : JoinInfo AST)
    (hul : ∀ l ∈ j.usingList, ∀ c ∈ l,
      optimizeDuplicateOrderBy ctx (optimizeDuplicateOrderByFromSubqueries
        (optimizeDuplicateOrderBy ctx c))
      = optimizeDuplicateOrderByFromSubqueries (optimizeDuplicateOrderBy ctx c))
    (hoe : ∀ c ∈ j.onExpr,
      optimizeDuplicateOrderBy ctx (optimizeDuplicateOrderByFromSubqueries
        (optimizeDuplicateOrderBy ctx c))
      = optimizeDuplicateOrderByFromSubqueries (optimizeDuplicateOrderBy ctx c)) :
    odbJoin ctx (fsJoin (odbJoin ctx j)) = fsJoin (odbJoin ctx j) := by
  obtain ⟨k, s, ul, oe⟩ := j
  show (⟨k, s,
      ((ul.map (List.map (optimizeDuplicateOrderBy ctx))).map
        (List.map optimizeDuplicateOrderByFromSubqueries)).map
        (List.map (optimizeDuplicateOrderBy ctx)),
      ((oe.map (optimizeDuplicateOrderBy ctx)).map
        optimizeDuplicateOrderByFromSubqueries).map (optimizeDuplicateOrderBy ctx)⟩
    : JoinInfo AST)
    = ⟨k, s,
        (ul.map (List.map (optimizeDuplicateOrderBy ctx))).map
          (List.map optimizeDuplicateOrderByFromSubqueries),
        (oe.map (optimizeDuplicateOrderBy ctx)).map
          optimizeDuplicateOrderByFromSubqueries⟩
  rw [olmap_fix2 ul hul, omap_fix2 oe hoe]

theorem odbMapSelect_fix_of (ctx : Ctx) (q : SelectData AST)
    (ihsl : ∀ c ∈ q.selectList,
      (optimizeDuplicateOrderBy ctx (optimizeDuplicateOrderBy ctx c)
        = optimizeDuplicateOrderBy ctx c)
      ∧ (optimizeDuplicateOrderBy ctx (optimizeDuplicateOrderByFromSubqueries
          (optimizeDuplicateOrderBy ctx c))
        = optimizeDuplicateOrderByFromSubqueries (optimizeDuplicateOrderBy ctx c)))
    (ihtb : ∀ c ∈ q.tables,
      (optimizeDuplicateOrderBy ctx (optimizeDuplicateOrderBy ctx c)
        = optimizeDuplicateOrderBy ctx c)
      ∧ (optimizeDuplicateOrderBy ctx (optimizeDuplicateOrderByFromSubqueries
          (optimizeDuplicateOrderBy ctx c))
        = optimizeDuplicateOrderByFromSubqueries (optimizeDuplicateOrderBy ctx c)))
    (ihpw : ∀ c ∈ q.prewhereC,
      (optimizeDuplicateOrderBy ctx (optimizeDuplicateOrderBy ctx c)
        = optimizeDuplicateOrderBy ctx c)
      ∧ (optimizeDuplicateOrderBy ctx (optimizeDuplicateOrderByFromSubqueries
          (optimizeDuplicateOrderBy ctx c))
        = optimizeDuplicateOrderByFromSubqueries (optimizeDuplicateOrderBy ctx c)))
    (ihwh : ∀ c ∈ q.whereC,
      (optimizeDuplicateOrderBy ctx (optimizeDuplicateOrderBy ctx c)
        = optimizeDuplicateOrderBy ctx c)
      ∧ (optimizeDuplicateOrderBy ctx (optimizeDuplicateOrderByFromSubqueries
          (optimizeDuplicateOrderBy ctx c))
        = optimizeDuplicateOrderByFromSubqueries (optimizeDuplicateOrderBy ctx c)))
    (ihgb : ∀ l ∈ q.groupBy, ∀ c ∈ l,
      (optimizeDuplicateOrderBy ctx (optimizeDuplicateOrderBy ctx c)
        = optimizeDuplicateOrderBy ctx c)
      ∧ (optimizeDuplicateOrderBy ctx (optimizeDuplicateOrderByFromSubqueries
          (optimizeDuplicateOrderBy ctx c))
        = optimizeDuplicateOrderByFromSubqueries (optimizeDuplicateOrderBy ctx c)))
    (ihhv : ∀ c ∈ q.having,
      (optimizeDuplicateOrderBy ctx (optimizeDuplicateOrderBy ctx c)
        = optimizeDuplicateOrderBy ctx c)
      ∧ (optimizeDuplicateOrderBy ctx (optimizeDuplicateOrderByFromSubqueries
          (optimizeDuplicateOrderBy ctx c))
        = optimizeDuplicateOrderByFromSubqueries (optimizeDuplicateOrderBy ctx c)))
    (ihob : ∀ l ∈ q.orderBy, ∀ c ∈ l,
      (optimizeDuplicateOrderBy ctx (optimizeDuplicateOrderBy ctx c)
        = optimizeDuplicateOrderBy ctx c)
      ∧ (optimizeDuplicateOrderBy ctx (optimizeDuplicateOrderByFromSubqueries
          (optimizeDuplicateOrderBy ctx c))
        = optimizeDuplicateOrderByFromSubqueries (optimizeDuplicateOrderBy ctx c)))
    (ihlb : ∀ l ∈ q.limitBy, ∀ c ∈ l,
      (optimizeDuplicateOrderBy ctx (optimizeDuplicateOrderBy ctx c)
        = optimizeDuplicateOrderBy ctx c)
      ∧ (optimizeDuplicateOrderBy ctx (optimizeDuplicateOrderByFromSubqueries
          (optimizeDuplicateOrderBy ctx c))
        = optimizeDuplicateOrderByFromSubqueries (optimizeDuplicateOrderBy ctx c)))
    (ihlbo : ∀ c ∈ q.limitByOffset,
      (optimizeDuplicateOrderBy ctx (optimizeDuplicateOrderBy ctx c)
        = optimizeDuplicateOrderBy ctx c)
      ∧ (optimizeDuplicateOrderBy ctx (optimizeDuplicateOrderByFromSubqueries
          (optimizeDuplicateOrderBy ctx c))
        = optimizeDuplicateOrderByFromSubqueries (optimizeDuplicateOrderBy ctx c)))
    (ihlbl : ∀ c ∈ q.limitByLength,
      (optimizeDuplicateOrderBy ctx (optimizeDuplicateOrderBy ctx c)
        = optimizeDuplicateOrderBy ctx c)
      ∧ (optimizeDuplicateOrderBy ctx (optimizeDuplicateOrderByFromSubqueries
          (optimizeDuplicateOrderBy ctx c))
        = optimizeDuplicateOrderByFromSubqueries (optimizeDuplicateOrderBy ctx c)))
    (ihll : ∀ c ∈ q.limitLength,
      (optimizeDuplicateOrderBy ctx (optimizeDuplicateOrderBy ctx c)
        = optimizeDuplicateOrderBy ctx c)
      ∧ (optimizeDuplicateOrderBy ctx (optimizeDuplicateOrderByFromSubqueries
          (optimizeDuplicateOrderBy ctx c))
        = optimizeDuplicateOrderByFromSubqueries (optimizeDuplicateOrderBy ctx c)))
    (ihlo : ∀ c ∈ q.limitOffset,
      (optimizeDuplicateOrderBy ctx (optimizeDuplicateOrderBy ctx c)
        = optimizeDuplicateOrderBy ctx c)
      ∧ (optimizeDuplicateOrderBy ctx (optimizeDuplicateOrderByFromSubqueries
          (optimizeDuplicateOrderBy ctx c))
        = optimizeDuplicateOrderByFromSubqueries (optimizeDuplicateOrderBy ctx c)))
    (ihul : ∀ j ∈ q.join, ∀ l ∈ j.usingList, ∀ c ∈ l,
      (optimizeDuplicateOrderBy ctx (optimizeDuplicateOrderBy ctx c)
        = optimizeDuplicateOrderBy ctx c)
      ∧ (optimizeDuplicateOrderBy ctx (optimizeDuplicateOrderByFromSubqueries
          (optimizeDuplicateOrderBy ctx c))
        = optimizeDuplicateOrderByFromSubqueries (optimizeDuplicateOrderBy ctx c)))
    (ihoe : ∀ j ∈ q.join, ∀ c ∈ j.onExpr,
      (optimizeDuplicateOrderBy ctx (optimizeDuplicateOrderBy ctx c)
        = optimizeDuplicateOrderBy ctx c)
      ∧ (optimizeDuplicateOrderBy ctx (optimizeDuplicateOrderByFromSubqueries
          (optimizeDuplicateOrderBy ctx c))
        = optimizeDuplicateOrderByFromSubqueries (optimizeDuplicateOrderBy ctx c))) :
    odbMapSelect ctx (odbMapSelect ctx q) = odbMapSelect ctx q
    ∧ odbMapSelect ctx (dropSubqueryOrderBys (odbMapSelect ctx q))
        = dropSubqueryOrderBys (odbMapSelect ctx q) := by
  constructor
  · apply odbMapSelect_eq_self
    · exact map_fix q.selectList (fun c hc => (ihsl c hc).1)
    · exact map_fix q.tables (fun c hc => (ihtb c hc).1)
    · exact omap_fix q.prewhereC (fun c hc => (ihpw c hc).1)
    · exact omap_fix q.whereC (fun c hc => (ihwh c hc).1)
    · exact olmap_fix q.groupBy (fun l hl c hc => (ihgb l hl c hc).1)
    · exact omap_fix q.having (fun c hc => (ihhv c hc).1)
    · exact olmap_fix q.orderBy (fun l hl c hc => (ihob l hl c hc).1)
    · exact olmap_fix q.limitBy (fun l hl c hc => (ihlb l hl c hc).1)
    · exact omap_fix q.limitByOffset (fun c hc => (ihlbo c hc).1)
    · exact omap_fix q.limitByLength (fun c hc => (ihlbl c hc).1)
    · exact omap_fix q.limitLength (fun c hc => (ihll c hc).1)
    · exact omap_fix q.limitOffset (fun c hc => (ihlo c hc).1)
    · exact omap_fix q.join (fun j hj => odbJoin_fix ctx j
        (fun l hl c hc => (ihul j hj l hl c hc).1)
        (fun c hc => (ihoe j hj c hc).1))
  · apply odbMapSelect_eq_self
    · exact map_fix q.selectList (fun c hc => (ihsl c hc).1)
    · exact map_fix2 q.tables (fun c hc => (ihtb c hc).2)
    · exact omap_fix q.prewhereC (fun c hc => (ihpw c hc).1)
    · exact omap_fix q.whereC (fun c hc => (ihwh c hc).1)
    · exact olmap_fix q.groupBy (fun l hl c hc => (ihgb l hl c hc).1)
    · exact omap_fix q.having (fun c hc => (ihhv c hc).1)
    · exact olmap_fix q.orderBy (fun l hl c hc => (ihob l hl c hc).1)
    · exact olmap_fix q.limitBy (fun l hl c hc => (ihlb l hl c hc).1)
    · exact omap_fix q.limitByOffset (fun c hc => (ihlbo c hc).1)
    · exact omap_fix q.limitByLength (fun c hc => (ihlbl c hc).1)
    · exact omap_fix q.limitLength (fun c hc => (ihll c hc).1)
    · exact omap_fix q.limitOffset (fun c hc => (ihlo c hc).1)
    · exact omap_fix2 q.join (fun j hj => odbJoin_fsJoin_fix ctx j
        (fun l hl c hc => (ihul j hj l hl c hc).2)
        (fun c hc => (ihoe j hj c hc).2))

theorem odb_selfpair (ctx : Ctx) (qr : SelectData AST)
    (hfix : odbMapSelect ctx qr = qr)
    (hdrop : ¬qr.hasSet = true → (qr.orderBy.isSome || qr.groupBy.isSome) = true →
      ¬(qr.selectList.any (fun e => e.isFunc && isASTFunctionStateful ctx e)) = true →
      dropSubqueryOrderBys qr = qr) :
    optimizeDuplicateOrderBy ctx (.selectq qr) = .selectq qr
    ∧ optimizeDuplicateOrderBy ctx
        (optimizeDuplicateOrderByFromSubqueries (.selectq qr))
      = optimizeDuplicateOrderByFromSubqueries (.selectq qr) := by
  have hself := odb_fixedpoint_select ctx qr hfix hdrop
  refine ⟨hself, ?_⟩
  rw [fs_select]
  by_cases hfs : (qr.orderBy.isSome && qr.limitBy.isNone && qr.limitByOffset.isNone
      && qr.limitByLength.isNone && qr.limitLength.isNone
      && qr.limitOffset.isNone) = true
  · rw [if_pos hfs]
    apply odb_fixedpoint_select ctx { qr with orderBy := none }
    · rw [odbMapSelect_orderBy_none, hfix]
    · intro h1 h2 h3
      have h2b : qr.groupBy.isSome = true := by simpa using h2
      have h2c : (qr.orderBy.isSome || qr.groupBy.isSome) = true := by simp [h2b]
      rw [dropSubqueryOrderBys_orderBy_none, hdrop h1 h2c h3]
  · rw [if_neg hfs]
    exact hself

theorem odb_case_select (ctx : Ctx) (q : SelectData AST)
    (hfix1 : odbMapSelect ctx (odbMapSelect ctx q) = odbMapSelect ctx q)
    (hfix2 : odbMapSelect ctx (dropSubqueryOrderBys (odbMapSelect ctx q))
        = dropSubqueryOrderBys (odbMapSelect ctx q)) :
    optimizeDuplicateOrderBy ctx (optimizeDuplicateOrderBy ctx (.selectq q))
        = optimizeDuplicateOrderBy ctx (.selectq q)
    ∧ optimizeDuplicateOrderBy ctx (optimizeDuplicateOrderByFromSubqueries
        (optimizeDuplicateOrderBy ctx (.selectq q)))
      = optimizeDuplicateOrderByFromSubqueries
          (optimizeDuplicateOrderBy ctx (.selectq q)) := by
  rw [odb_select]
  by_cases hset : (odbMapSelect ctx q).hasSet = true
  · rw [if_pos hset]
    exact odb_selfpair ctx (odbMapSelect ctx q) hfix1 (fun habs _ _ => absurd hset habs)
  · rw [if_neg hset]
    by_cases hcond : ((odbMapSelect ctx q).orderBy.isSome
        || (odbMapSelect ctx q).groupBy.isSome) = true
    · rw [if_pos hcond]
      by_cases hstf : ((odbMapSelect ctx q).selectList.any
          (fun e => e.isFunc && isASTFunctionStateful ctx e)) = true
      · rw [if_pos hstf]
        exact odb_selfpair ctx (odbMapSelect ctx q) hfix1
          (fun _ _ hnost => absurd hstf hnost)
      · rw [if_neg hstf]
        exact odb_selfpair ctx (dropSubqueryOrderBys (odbMapSelect ctx q)) hfix2
          (fun _ _ _ => dropSubqueryOrderBys_idem (odbMapSelect ctx q))
    · rw [if_neg hcond]
      exact odb_selfpair ctx (odbMapSelect ctx q) hfix1 (fun _ hc _ => absurd hc hcond)

theorem odb_idem_aux (ctx : Ctx) (t : AST) :
    optimizeDuplicateOrderBy ctx (optimizeDuplicateOrderBy ctx t)
        = optimizeDuplicateOrderBy ctx t
    ∧ optimizeDuplicateOrderBy ctx (optimizeDuplicateOrderByFromSubqueries
        (optimizeDuplicateOrderBy ctx t))
      = optimizeDuplicateOrderByFromSubqueries (optimizeDuplicateOrderBy ctx t) := by
  induction t using optimizeDuplicateOrderBy.induct ctx with
  | case1 n a =>
      constructor <;> simp only [odb_ident, optimizeDuplicateOrderByFromSubqueries]
  | case2 v a =>
      constructor <;> simp only [odb_lit, optimizeDuplicateOrderByFromSubqueries]
  | case3 n a args ih =>
      constructor
      · rw [odb_func, odb_func, map_fix args (fun c hc => (ih c hc).1)]
      · rw [odb_func, fs_func, odb_func, map_fix2 args (fun c hc => (ih c hc).2)]
  | case4 =>
      constructor <;> simp only [odb_asterisk, optimizeDuplicateOrderByFromSubqueries]
  | case5 p =>
      constructor <;> simp only [odb_qasterisk, optimizeDuplicateOrderByFromSubqueries]
  | case6 e c ihe ihc =>
      constructor
      · rw [odb_orderElem, odb_orderElem, ihe.1,
          omap_fix c (fun x hx => (ihc x hx).1)]
      · rw [odb_orderElem, fs_orderElem, odb_orderElem, ihe.2,
          omap_fix2 c (fun x hx => (ihc x hx).2)]
  | case7 s ihs =>
      constructor
      · rw [odb_subquery, odb_subquery, ihs.1]
      · rw [odb_subquery, fs_subquery, odb_subquery, ihs.2]
  | case8 a b c iha ihb ihc =>
      constructor
      · rw [odb_tableExpr, odb_tableExpr, omap_fix a (fun x hx => (iha x hx).1),
          omap_fix b (fun x hx => (ihb x hx).1), omap_fix c (fun x hx => (ihc x hx).1)]
      · rw [odb_tableExpr, fs_tableExpr, odb_tableExpr,
          omap_fix2 a (fun x hx => (iha x hx).2), omap_fix2 b (fun x hx => (ihb x hx).2),
          omap_fix2 c (fun x hx => (ihc x hx).2)]
  | case9 d hs sl tb pw wh gb hv ob lb lbo lbl ll lo jn q1 hset ih1 ih2 ih3 ih4 ih5 ih6 ih7 ih8 ih9 ih10 ih11 ih12 ih13 ih14 =>
      have hfix := odbMapSelect_fix_of ctx
        ⟨d, hs, sl, tb, pw, wh, gb, hv, ob, lb, lbo, lbl, ll, lo, jn⟩
        ih1 ih2 ih3 ih4 ih5 ih6 ih7 ih8 ih9 ih10 ih11 ih12
        (fun j hj => by
          obtain ⟨k, s2, ul, oe⟩ := j
          exact fun l hl c hc => ih13 k s2 ul oe hj l hl c hc)
        (fun j hj => by
          obtain ⟨k, s2, ul, oe⟩ := j
          exact fun c hc => ih14 k s2 ul oe hj c hc)
      exact odb_case_select ctx _ hfix.1 hfix.2
  | case10 d hs sl tb pw wh gb hv ob lb lbo lbl ll lo jn q1 hset hcond hstf ih1 ih2 ih3 ih4 ih5 ih6 ih7 ih8 ih9 ih10 ih11 ih12 ih13 ih14 =>
      have hfix := odbMapSelect_fix_of ctx
        ⟨d, hs, sl, tb, pw, wh, gb, hv, ob, lb, lbo, lbl, ll, lo, jn⟩
        ih1 ih2 ih3 ih4 ih5 ih6 ih7 ih8 ih9 ih10 ih11 ih12
        (fun j hj => by
          obtain ⟨k, s2, ul, oe⟩ := j
          exact fun l hl c hc => ih13 k s2 ul oe hj l hl c hc)
        (fun j hj => by
          obtain ⟨k, s2, ul, oe⟩ := j
          exact fun c hc => ih14 k s2 ul oe hj c hc)
      exact odb_case_select ctx _ hfix.1 hfix.2
  | case11 d hs sl tb pw wh gb hv ob lb lbo lbl ll lo jn q1 hset hcond hstf ih1 ih2 ih3 ih4 ih5 ih6 ih7 ih8 ih9 ih10 ih11 ih12 ih13 ih14 =>
      have hfix := odbMapSelect_fix_of ctx
        ⟨d, hs, sl, tb, pw, wh, gb, hv, ob, lb, lbo, lbl, ll, lo, jn⟩
        ih1 ih2 ih3 ih4 ih5 ih6 ih7 ih8 ih9 ih10 ih11 ih12
        (fun j hj => by
          obtain ⟨k, s2, ul, oe⟩ := j
          exact fun l hl c hc => ih13 k s2 ul oe hj l hl c hc)
        (fun j hj => by
          obtain ⟨k, s2, ul, oe⟩ := j
          exact fun c hc => ih14 k s2 ul oe hj c hc)
      exact odb_case_select ctx _ hfix.1 hfix.2
  | case12 d hs sl tb pw wh gb hv ob lb lbo lbl ll lo jn q1 hset hcond ih1 ih2 ih3 ih4 ih5 ih6 ih7 ih8 ih9 ih10 ih11 ih12 ih13 ih14 =>
      have hfix := odbMapSelect_fix_of ctx
        ⟨d, hs, sl, tb, pw, wh, gb, hv, ob, lb, lbo, lbl, ll, lo, jn⟩
        ih1 ih2 ih3 ih4 ih5 ih6 ih7 ih8 ih9 ih10 ih11 ih12
        (fun j hj => by
          obtain ⟨k, s2, ul, oe⟩ := j
          exact fun l hl c hc => ih13 k s2 ul oe hj l hl c hc)
        (fun j hj => by
          obtain ⟨k, s2, ul, oe⟩ := j
          exact fun c hc => ih14 k s2 ul oe hj c hc)
      exact odb_case_select ctx _ hfix.1 hfix.2

theorem optimizeDuplicateOrderBy_idem (ctx : Ctx) (t : AST) :
    optimizeDuplicateOrderBy ctx (optimizeDuplicateOrderBy ctx t)
      = optimizeDuplicateOrderBy ctx t :=
  (odb_idem_aux ctx t).1

theorem dd_idem_aux (t : AST) (st : DDState) :
    ddVisit (ddVisit t st).1 st = ddVisit t st := by
  refine ddVisit.induct
    (fun t st => ddVisit (ddVisit t st).1 st = ddVisit t st)
    (fun o st => ddVisitOptList (ddVisitOptList o st).1 st = ddVisitOptList o st)
    (fun l st => ddVisitList (ddVisitList l st).1 st = ddVisitList l st)
    (fun jn st => ddVisitJoin (ddVisitJoin jn st).1 st = ddVisitJoin jn st)
    (fun o st => ddVisitOpt (ddVisitOpt o st).1 st = ddVisitOpt o st)
    ?_ ?_ ?_ ?_ ?_ ?_ ?_ ?_ ?_ ?_ ?_ ?_ ?_ ?_ ?_ ?_ ?_ ?_ ?_ t st
  · intro st n al
    simp only [ddVisit]
  · intro st v al
    simp only [ddVisit]
  · intro st n al args ih
    simp only [ddVisit]
    rw [ih]
  · intro st
    simp only [ddVisit]
  · intro st p
    simp only [ddVisit]
  · intro st e c p1 ih1 ih5
    have e5 : ddVisitOpt (ddVisitOpt c (ddVisit e st).2).1 (ddVisit e st).2
        = ddVisitOpt c (ddVisit e st).2 := ih5
    simp only [ddVisit]
    rw [ih1, e5]
  · intro st s ih
    simp only [ddVisit]
    rw [ih]
  · intro st a b c p1 p2 iha ihb ihb2 ihc
    have ea : ddVisitOpt (ddVisitOpt a st).1 st = ddVisitOpt a st := iha
    have eb : ddVisitOpt (ddVisitOpt b (ddVisitOpt a st).2).1 (ddVisitOpt a st).2
        = ddVisitOpt b (ddVisitOpt a st).2 := ihb
    have ec : ddVisitOpt (ddVisitOpt c (ddVisitOpt b (ddVisitOpt a st).2).2).1
          (ddVisitOpt b (ddVisitOpt a st).2).2
        = ddVisitOpt c (ddVisitOpt b (ddVisitOpt a st).2).2 := ihc
    simp only [ddVisit]
    rw [ea, eb, ec]
  · intro st d sl tb pw wh gb hv ob lb lbo lbl ll lo jn psl ptb pjn ppw pwh pgb phv pob plb plbo plbl pll ihsl ihtb ihtb2 ihjn ihjn2 ihpw ihpw2 ihwh ihwh2 ihgb ihgb2 ihhv ihhv2 ihob ihob2 ihlb ihlb2 ihlbo ihlbo2 ihlbl ihlbl2 ihll ihll2 ihlo
    simp only [ddVisit, eq_self_iff_true, if_true]
    set P1 := ddVisitList sl st
    set P2 := ddVisitList tb P1.2
    set P3 := ddVisitJoin jn P2.2
    set P4 := ddVisitOpt pw P3.2
    set P5 := ddVisitOpt wh P4.2
    set P6 := ddVisitOptList gb P5.2
    set P7 := ddVisitOpt hv P6.2
    set P8 := ddVisitOptList ob P7.2
    set P9 := ddVisitOptList lb P8.2
    set P10 := ddVisitOpt lbo P9.2
    set P11 := ddVisitOpt lbl P10.2
    set P12 := ddVisitOpt ll P11.2
    set P13 := ddVisitOpt lo P12.2
    have E1 : ddVisitList P1.1 st = P1 := ihsl
    have E2 : ddVisitList P2.1 P1.2 = P2 := ihtb
    have E3 : ddVisitJoin P3.1 P2.2 = P3 := ihjn
    have E4 : ddVisitOpt P4.1 P3.2 = P4 := ihpw
    have E5 : ddVisitOpt P5.1 P4.2 = P5 := ihwh
    have E6 : ddVisitOptList P6.1 P5.2 = P6 := ihgb
    have E7 : ddVisitOpt P7.1 P6.2 = P7 := ihhv
    have E8 : ddVisitOptList P8.1 P7.2 = P8 := ihob
    have E9 : ddVisitOptList P9.1 P8.2 = P9 := ihlb
    have E10 : ddVisitOpt P10.1 P9.2 = P10 := ihlbo
    have E11 : ddVisitOpt P11.1 P10.2 = P11 := ihlbl
    have E12 : ddVisitOpt P12.1 P11.2 = P12 := ihll
    have E13 : ddVisitOpt P13.1 P12.2 = P13 := ihlo
    rw [E1, E2, E3, E4, E5, E6, E7, E8, E9, E10, E11, E12, E13]
  · intro st hs sl tb pw wh gb hv ob lb lbo lbl ll lo jn psl ptb pjn ppw pwh pgb phv pob plb plbo plbl pll hnhs ihsl ihtb ihtb2 ihjn ihjn2 ihpw ihpw2 ihwh ihwh2 ihgb ihgb2 ihhv ihhv2 ihob ihob2 ihlb ihlb2 ihlbo ihlbo2 ihlbl ihlbl2 ihll ihll2 ihlo
    simp only [ddVisit, if_neg hnhs, eq_self_iff_true, if_true]
    set P1 := ddVisitList sl st
    set P2 := ddVisitList tb P1.2
    set P3 := ddVisitJoin jn P2.2
    set P4 := ddVisitOpt pw P3.2
    set P5 := ddVisitOpt wh P4.2
    set P6 := ddVisitOptList gb P5.2
    set P7 := ddVisitOpt hv P6.2
    set P8 := ddVisitOptList ob P7.2
    set P9 := ddVisitOptList lb P8.2
    set P10 := ddVisitOpt lbo P9.2
    set P11 := ddVisitOpt lbl P10.2
    set P12 := ddVisitOpt ll P11.2
    set P13 := ddVisitOpt lo P12.2
    have E1 : ddVisitList P1.1 st = P1 := ihsl
    have E2 : ddVisitList P2.1 P1.2 = P2 := ihtb
    have E3 : ddVisitJoin P3.1 P2.2 = P3 := ihjn
    have E4 : ddVisitOpt P4.1 P3.2 = P4 := ihpw
    have E5 : ddVisitOpt P5.1 P4.2 = P5 := ihwh
    have E6 : ddVisitOptList P6.1 P5.2 = P6 := ihgb
    have E7 : ddVisitOpt P7.1 P6.2 = P7 := ihhv
    have E8 : ddVisitOptList P8.1 P7.2 = P8 := ihob
    have E9 : ddVisitOptList P9.1 P8.2 = P9 := ihlb
    have E10 : ddVisitOpt P10.1 P9.2 = P10 := ihlbo
    have E11 : ddVisitOpt P11.1 P10.2 = P11 := ihlbl
    have E12 : ddVisitOpt P12.1 P11.2 = P12 := ihll
    have E13 : ddVisitOpt P13.1 P12.2 = P13 := ihlo
    split
    · rename_i hC
      simp only [ddVisit, if_neg hnhs, Bool.false_eq_true, if_false]
      rw [E1, E2, E3, E4, E5, E6, E7, E8, E9, E10, E11, E12, E13]
      simp only [Prod.mk.injEq]
      refine ⟨trivial, ?_⟩
      rw [hC.2, ← hC.1]
    · rename_i hC
      simp only [ddVisit, if_neg hnhs, eq_self_iff_true, if_true]
      rw [E1, E2, E3, E4, E5, E6, E7, E8, E9, E10, E11, E12, E13]
      rw [if_neg hC]
  · intro st d hs sl tb pw wh gb hv ob lb lbo lbl ll lo jn psl ptb pjn ppw pwh pgb phv pob plb plbo plbl pll hnhs hnd ihsl ihtb ihtb2 ihjn ihjn2 ihpw ihpw2 ihwh ihwh2 ihgb ihgb2 ihhv ihhv2 ihob ihob2 ihlb ihlb2 ihlbo ihlbo2 ihlbl ihlbl2 ihll ihll2 ihlo
    simp only [ddVisit, if_neg hnhs, if_neg hnd]
    set P1 := ddVisitList sl st
    set P2 := ddVisitList tb P1.2
    set P3 := ddVisitJoin jn P2.2
    set P4 := ddVisitOpt pw P3.2
    set P5 := ddVisitOpt wh P4.2
    set P6 := ddVisitOptList gb P5.2
    set P7 := ddVisitOpt hv P6.2
    set P8 := ddVisitOptList ob P7.2
    set P9 := ddVisitOptList lb P8.2
    set P10 := ddVisitOpt lbo P9.2
    set P11 := ddVisitOpt lbl P10.2
    set P12 := ddVisitOpt ll P11.2
    set P13 := ddVisitOpt lo P12.2
    have E1 : ddVisitList P1.1 st = P1 := ihsl
    have E2 : ddVisitList P2.1 P1.2 = P2 := ihtb
    have E3 : ddVisitJoin P3.1 P2.2 = P3 := ihjn
    have E4 : ddVisitOpt P4.1 P3.2 = P4 := ihpw
    have E5 : ddVisitOpt P5.1 P4.2 = P5 := ihwh
    have E6 : ddVisitOptList P6.1 P5.2 = P6 := ihgb
    have E7 : ddVisitOpt P7.1 P6.2 = P7 := ihhv
    have E8 : ddVisitOptList P8.1 P7.2 = P8 := ihob
    have E9 : ddVisitOptList P9.1 P8.2 = P9 := ihlb
    have E10 : ddVisitOpt P10.1 P9.2 = P10 := ihlbo
    have E11 : ddVisitOpt P11.1 P10.2 = P11 := ihlbl
    have E12 : ddVisitOpt P12.1 P11.2 = P12 := ihll
    have E13 : ddVisitOpt P13.1 P12.2 = P13 := ihlo
    rw [E1, E2, E3, E4, E5, E6, E7, E8, E9, E10, E11, E12, E13]
  · intro st
    simp only [ddVisitOptList]
  · intro st ges ih
    have e : ddVisitList (ddVisitList ges st).1 st = ddVisitList ges st := ih
    simp only [ddVisitOptList]
    rw [e]
  · intro st
    simp only [ddVisitList]
  · intro st e es p1 ih1 ih3
    have e3 : ddVisitList (ddVisitList es (ddVisit e st).2).1 (ddVisit e st).2
        = ddVisitList es (ddVisit e st).2 := ih3
    simp only [ddVisitList]
    rw [ih1, e3]
  · intro st
    simp only [ddVisitJoin]
  · intro st k s ul oe p1 ih2 ih5
    have e2 : ddVisitOptList (ddVisitOptList ul st).1 st = ddVisitOptList ul st := ih2
    have e5 : ddVisitOpt (ddVisitOpt oe (ddVisitOptList ul st).2).1
          (ddVisitOptList ul st).2
        = ddVisitOpt oe (ddVisitOptList ul st).2 := ih5
    simp only [ddVisitJoin]
    rw [e2, e5]
  · intro st
    simp only [ddVisitOpt]
  · intro st last ih
    simp only [ddVisitOpt]
    rw [ih]

theorem optimizeDuplicateDistinct_idem (t : AST) :
    optimizeDuplicateDistinct (optimizeDuplicateDistinct t)
      = optimizeDuplicateDistinct t := by
  unfold optimizeDuplicateDistinct
  rw [dd_idem_aux t (false, [])]

/-- C8: every clause-optimizer sub-pass is idempotent: running
`optimizeLimitBy`, `optimizeUsing`, `optimizeDuplicateOrderBy` or
`optimizeDuplicateDistinct` twice gives the same result as running it
once, and whenever `optimizeGroupBy`, `optimizeOrderBy` or
`setJoinStrictness` succeeds with result `q2`, running the same pass on
`q2` succeeds and returns `q2` unchanged. -/
theorem clauseOptimizers_idempotent :
    (∀ (q q2 : SelectData AST) (cols : List String) (ctx : Ctx),
        optimizeGroupBy q cols ctx = .ok q2 → optimizeGroupBy q2 cols ctx = .ok q2)
    ∧ (∀ (q q2 : SelectData AST),
        optimizeOrderBy q = .ok q2 → optimizeOrderBy q2 = .ok q2)
    ∧ (∀ q : SelectData AST, optimizeLimitBy (optimizeLimitBy q) = optimizeLimitBy q)
    ∧ (∀ q : SelectData AST, optimizeUsing (optimizeUsing q) = optimizeUsing q)
    ∧ (∀ (ctx : Ctx) (t : AST),
        optimizeDuplicateOrderBy ctx (optimizeDuplicateOrderBy ctx t)
          = optimizeDuplicateOrderBy ctx t)
    ∧ (∀ t : AST, optimizeDuplicateDistinct (optimizeDuplicateDistinct t)
          = optimizeDuplicateDistinct t)
    ∧ (∀ (q q2 : SelectData AST) (jds : JoinDefault) (oa : Bool),
        setJoinStrictness q jds oa = .ok q2 → setJoinStrictness q2 jds oa = .ok q2) :=
  ⟨fun q q2 cols ctx h => optimizeGroupBy_idem q q2 cols ctx h,
   fun q q2 h => optimizeOrderBy_idem q q2 h,
   optimizeLimitBy_idem,
   optimizeUsing_idem,
   optimizeDuplicateOrderBy_idem,
   optimizeDuplicateDistinct_idem,
   fun q q2 jds oa h => setJoinStrictness_idem q q2 jds oa h⟩

/-- Concrete instantiation of the C8 idempotence properties: the empty
select query is a fixed point of every pass, and the two tree passes are
idempotent on the asterisk node. -/
theorem clauseOptimizers_idempotent_witness :
    optimizeGroupBy emptySelect [] ctx0 = .ok emptySelect
    ∧ optimizeOrderBy emptySelect = .ok emptySelect
    ∧ optimizeLimitBy (optimizeLimitBy emptySelect) = optimizeLimitBy emptySelect
    ∧ optimizeUsing (optimizeUsing emptySelect) = optimizeUsing emptySelect
    ∧ optimizeDuplicateOrderBy ctx0 (optimizeDuplicateOrderBy ctx0 AST.asterisk)
        = optimizeDuplicateOrderBy ctx0 AST.asterisk
    ∧ optimizeDuplicateDistinct (optimizeDuplicateDistinct AST.asterisk)
        = optimizeDuplicateDistinct AST.asterisk
    ∧ setJoinStrictness emptySelect JoinDefault.all false = .ok emptySelect :=
  ⟨clauseOptimizers_idempotent.1 emptySelect emptySelect [] ctx0
      (by simp [optimizeGroupBy, emptySelect]),
   clauseOptimizers_idempotent.2.1 emptySelect emptySelect
      (by simp [optimizeOrderBy, emptySelect]),
   clauseOptimizers_idempotent.2.2.1 emptySelect,
   clauseOptimizers_idempotent.2.2.2.1 emptySelect,
   clauseOptimizers_idempotent.2.2.2.2.1 ctx0 AST.asterisk,
   clauseOptimizers_idempotent.2.2.2.2.2.1 AST.asterisk,
   clauseOptimizers_idempotent.2.2.2.2.2.2 emptySelect emptySelect JoinDefault.all
      false (by simp [setJoinStrictness, emptySelect])⟩
